import Mathlib

/-!
Verification of the trade-logger core: a shallow embedding of the FIFO
P&L engine (`insightsGenerator.js`), the structure cost helpers
(`structureConfig.js`), the statistics functions, and the trade parser
(`tradeParser.js`), together with proofs of the specified properties.

Numbers are modelled by `ℚ` (JavaScript numeric arithmetic on the exact
decimal data handled here); `Infinity`-producing results are modelled by
`ExtNum`.  Timestamps and dates are opaque integers: the engine never
computes with them, it only copies them into match records.
-/

namespace TradeLogger

/-- Possibly-infinite result of a JavaScript computation: either a finite
number or `Infinity`. -/
inductive ExtNum (α : Type) where
  | num (x : α) : ExtNum α
  | inf : ExtNum α
  deriving DecidableEq, Repr

/-! ## Trading constants (`structureConfig.js`, default values) -/

/-- Dollar value of one tick: `TICK_VALUE = 16.5`. -/
def TICK_VALUE : ℚ := 33 / 2

/-- Price units per tick: `TICK_SIZE = 0.005`. -/
def TICK_SIZE : ℚ := 1 / 200

/-- Cost per leg per lot: `RT_COST_PER_LOT = 1.65`. -/
def RT_COST_PER_LOT : ℚ := 33 / 20

/-- JS `priceToTicks(priceDiff)`: `priceDiff / TICK_SIZE`. -/
def priceToTicks (priceDiff : ℚ) : ℚ := priceDiff / TICK_SIZE

/-- JS `pricePnLToDollars(pricePnL)`: ticks times tick value. -/
def pricePnLToDollars (pricePnL : ℚ) : ℚ := priceToTicks pricePnL * TICK_VALUE

/-- JS `calculateRTCost(quantity, rtLegs)`: entry plus exit cost,
`quantity * (rtLegs * 2) * RT_COST_PER_LOT`. -/
def calculateRTCost (quantity rtLegs : ℚ) : ℚ :=
  quantity * (rtLegs * 2) * RT_COST_PER_LOT

/-- JS `getTotalRTLegs(rtLegs)`: `rtLegs * 2`. -/
def getTotalRTLegs (rtLegs : ℚ) : ℚ := rtLegs * 2

/-! ## Data model of the FIFO engine (`calculateFIFOPnL`) -/

/-- One trade fill, as consumed by `calculateFIFOPnL`.  `timestamp` and
`date` are opaque: the engine only copies them into match records. -/
structure Trade where
  side : String
  quantity : ℚ
  price : ℚ
  timestamp : ℤ
  date : ℤ
  deriving DecidableEq, Repr

/-- A resting queue entry: in JS this is the object
`{...trade, quantity: remainingQty, originalQty: quantity, entryOrder}`.
The spread fields are kept in `trade`; `quantity` is the JS object's
(overridden, mutable) `quantity` field, i.e. the remaining lots. -/
structure QEntry where
  trade : Trade
  quantity : ℚ
  originalQty : ℚ
  entryOrder : ℕ
  deriving DecidableEq, Repr

/-- One realized match record pushed by `calculateFIFOPnL`.  `openTrade`
is the shallow copy `{...oldestEntry}` taken before the decrement, so its
`quantity` is the entry's remaining quantity at match time. -/
structure Match where
  openTrade : QEntry
  closeTrade : Trade
  matchQty : ℚ
  pnl : ℚ
  pnlDollars : ℚ
  rtCost : ℚ
  netPnLDollars : ℚ
  rtLegsEntry : ℚ
  rtLegsTotal : ℚ
  type : String
  closedAt : ℤ
  closeDate : ℤ
  entryOrder : ℕ
  exitOrder : ℕ
  deriving DecidableEq, Repr

/-- The engine's running state: the two queues, the accumulated match
list, the running totals and the 1-based entry counter. -/
structure BookState where
  longQueue : List QEntry
  shortQueue : List QEntry
  matchList : List Match
  realizedPnL : ℚ
  totalBuyQty : ℚ
  totalSellQty : ℚ
  totalBuyCost : ℚ
  totalSellProceeds : ℚ
  realizedPnLDollars : ℚ
  totalRTCost : ℚ
  grossPnLDollars : ℚ
  entryIndex : ℕ
  deriving DecidableEq, Repr

/-- The initial engine state (all queues and totals empty). -/
def initBook : BookState :=
  ⟨[], [], [], 0, 0, 0, 0, 0, 0, 0, 0, 0⟩

/-- Build the match record pushed for one pairing.  `isBuy` tells whether
the incoming trade is a BUY (covering shorts) or a SELL (closing longs). -/
def mkMatch (rtLegs : ℚ) (t : Trade) (exitIdx : ℕ) (isBuy : Bool)
    (e : QEntry) (matchQty : ℚ) : Match :=
  let pnl := if isBuy then matchQty * (e.trade.price - t.price)
             else matchQty * (t.price - e.trade.price)
  let grossDollars := pricePnLToDollars pnl
  let rtCost := calculateRTCost matchQty rtLegs
  { openTrade := e
    closeTrade := t
    matchQty := matchQty
    pnl := pnl
    pnlDollars := grossDollars
    rtCost := rtCost
    netPnLDollars := grossDollars - rtCost
    rtLegsEntry := rtLegs
    rtLegsTotal := getTotalRTLegs rtLegs
    type := if isBuy then "COVER_SHORT" else "CLOSE_LONG"
    closedAt := t.timestamp
    closeDate := t.date
    entryOrder := e.entryOrder
    exitOrder := exitIdx }

/-- The inner `while (remainingQty > 0 && queue.length > 0)` loop of
`calculateFIFOPnL`, matching the incoming trade against the opposing
queue.  Returns the matches pushed (in push order), the final queue and
the final remaining quantity.  In the branch where the oldest entry is
not fully consumed, `matchQty = min remaining e.quantity < e.quantity`
forces `matchQty = remaining`, so the new remaining quantity is `0` and
the JS loop exits; the embedding therefore returns there directly. -/
def fifoLoop (rtLegs : ℚ) (t : Trade) (exitIdx : ℕ) (isBuy : Bool) :
    ℚ → List QEntry → List Match × List QEntry × ℚ
  | remaining, [] => ([], [], remaining)
  | remaining, e :: rest =>
    if 0 < remaining then
      let matchQty := min remaining e.quantity
      let m := mkMatch rtLegs t exitIdx isBuy e matchQty
      if e.quantity - matchQty = 0 then
        let r := fifoLoop rtLegs t exitIdx isBuy (remaining - matchQty) rest
        (m :: r.1, r.2.1, r.2.2)
      else
        ([m], { e with quantity := e.quantity - matchQty } :: rest,
          remaining - matchQty)
    else ([], e :: rest, remaining)

/-- Process one trade of the `for (const trade of trades)` loop:
increment `entryIndex`, match against the opposing queue, update the
totals and push any remainder as a new open entry. -/
def processTrade (rtLegs : ℚ) (st : BookState) (t : Trade) : BookState :=
  let idx := st.entryIndex + 1
  if t.side = "BUY" then
    let r := fifoLoop rtLegs t idx true t.quantity st.shortQueue
    let ms := r.1
    let rem := r.2.2
    { st with
      entryIndex := idx
      totalBuyQty := st.totalBuyQty + t.quantity
      totalBuyCost := st.totalBuyCost + t.quantity * t.price
      shortQueue := r.2.1
      longQueue := st.longQueue ++
        (if 0 < rem then [⟨t, rem, t.quantity, idx⟩] else [])
      matchList := st.matchList ++ ms
      realizedPnL := st.realizedPnL + (ms.map Match.pnl).sum
      grossPnLDollars := st.grossPnLDollars + (ms.map Match.pnlDollars).sum
      totalRTCost := st.totalRTCost + (ms.map Match.rtCost).sum
      realizedPnLDollars :=
        st.realizedPnLDollars + (ms.map Match.netPnLDollars).sum }
  else
    let r := fifoLoop rtLegs t idx false t.quantity st.longQueue
    let ms := r.1
    let rem := r.2.2
    { st with
      entryIndex := idx
      totalSellQty := st.totalSellQty + t.quantity
      totalSellProceeds := st.totalSellProceeds + t.quantity * t.price
      longQueue := r.2.1
      shortQueue := st.shortQueue ++
        (if 0 < rem then [⟨t, rem, t.quantity, idx⟩] else [])
      matchList := st.matchList ++ ms
      realizedPnL := st.realizedPnL + (ms.map Match.pnl).sum
      grossPnLDollars := st.grossPnLDollars + (ms.map Match.pnlDollars).sum
      totalRTCost := st.totalRTCost + (ms.map Match.rtCost).sum
      realizedPnLDollars :=
        st.realizedPnLDollars + (ms.map Match.netPnLDollars).sum }

/-- Run the engine's main loop over the whole trade list, in array order. -/
def runBook (rtLegs : ℚ) (trades : List Trade) : BookState :=
  trades.foldl (processTrade rtLegs) initBook

/-- The object returned by `calculateFIFOPnL`. -/
structure StructureBook where
  realizedPnL : ℚ
  unrealizedPnL : ℚ
  realizedPnLDollars : ℚ
  grossPnLDollars : ℚ
  totalRTCost : ℚ
  netPosition : ℚ
  openLongQty : ℚ
  openShortQty : ℚ
  avgLongPrice : ℚ
  avgShortPrice : ℚ
  avgBuyPrice : ℚ
  avgSellPrice : ℚ
  totalBuyQty : ℚ
  totalSellQty : ℚ
  closedQty : ℚ
  rtLegs : ℚ
  totalRtLegsPerRoundTrip : ℚ
  matchList : List Match
  longQueue : List QEntry
  shortQueue : List QEntry
  deriving DecidableEq, Repr

/-- JS `calculateFIFOPnL(trades, structureName)`.  The JS function first
resolves `rtLegs = getStructureRTLegs(structureName)` (or `1` for an
empty name); the embedding takes that resolved leg count as the `rtLegs`
parameter and is otherwise the same computation. -/
def calculateFIFOPnL (trades : List Trade) (rtLegs : ℚ) : StructureBook :=
  let st := runBook rtLegs trades
  let openLongQty := (st.longQueue.map QEntry.quantity).sum
  let openShortQty := (st.shortQueue.map QEntry.quantity).sum
  { realizedPnL := st.realizedPnL
    unrealizedPnL := 0
    realizedPnLDollars := st.realizedPnLDollars
    grossPnLDollars := st.grossPnLDollars
    totalRTCost := st.totalRTCost
    netPosition := openLongQty - openShortQty
    openLongQty := openLongQty
    openShortQty := openShortQty
    avgLongPrice := if 0 < openLongQty then
      (st.longQueue.map (fun p => p.trade.price * p.quantity)).sum / openLongQty
      else 0
    avgShortPrice := if 0 < openShortQty then
      (st.shortQueue.map (fun p => p.trade.price * p.quantity)).sum / openShortQty
      else 0
    avgBuyPrice := if 0 < st.totalBuyQty then st.totalBuyCost / st.totalBuyQty else 0
    avgSellPrice := if 0 < st.totalSellQty then
      st.totalSellProceeds / st.totalSellQty else 0
    totalBuyQty := st.totalBuyQty
    totalSellQty := st.totalSellQty
    closedQty := (st.matchList.map Match.matchQty).sum
    rtLegs := rtLegs
    totalRtLegsPerRoundTrip := getTotalRTLegs rtLegs
    matchList := st.matchList
    longQueue := st.longQueue
    shortQueue := st.shortQueue }

/-! ## Supporting lemmas about the matching loop -/

/-- Total remaining quantity of a queue. -/
def sumQ (q : List QEntry) : ℚ := (q.map QEntry.quantity).sum

theorem sumQ_append (a b : List QEntry) : sumQ (a ++ b) = sumQ a + sumQ b := by
  simp [sumQ]

/-- The loop consumes exactly as much from the queue as it consumes from
the incoming remaining quantity. -/
theorem fifoLoop_sum (rtLegs : ℚ) (t : Trade) (idx : ℕ) (b : Bool) :
    ∀ (q : List QEntry) (rem : ℚ),
      sumQ (fifoLoop rtLegs t idx b rem q).2.1 =
        sumQ q - (rem - (fifoLoop rtLegs t idx b rem q).2.2) := by
  intro q
  induction q with
  | nil => intro rem; simp [fifoLoop]
  | cons e rest ih =>
    intro rem
    simp only [fifoLoop]
    split_ifs with h0 hc
    · have hrec := ih (rem - min rem e.quantity)
      have he : min rem e.quantity = e.quantity := by linarith
      rw [he] at hrec
      simp only [he, sumQ, List.map_cons, List.sum_cons] at hrec ⊢
      linarith
    · simp only [sumQ, List.map_cons, List.sum_cons]; ring
    · simp [sumQ]

/-- The remaining quantity stays nonnegative through the loop. -/
theorem fifoLoop_rem_nonneg (rtLegs : ℚ) (t : Trade) (idx : ℕ) (b : Bool) :
    ∀ (q : List QEntry) (rem : ℚ), 0 ≤ rem →
      0 ≤ (fifoLoop rtLegs t idx b rem q).2.2 := by
  intro q
  induction q with
  | nil => intro rem h; simpa [fifoLoop] using h
  | cons e rest ih =>
    intro rem h
    simp only [fifoLoop]
    split_ifs with h0 hc
    · exact ih _ (by simp [min_le_left])
    · simp [min_le_left]
    · exact h

/-- Every match the loop emits is `mkMatch` of some queue entry and
matched quantity. -/
theorem fifoLoop_mem (rtLegs : ℚ) (t : Trade) (idx : ℕ) (b : Bool) :
    ∀ (q : List QEntry) (rem : ℚ) (m : Match),
      m ∈ (fifoLoop rtLegs t idx b rem q).1 →
      ∃ e mq, m = mkMatch rtLegs t idx b e mq := by
  intro q
  induction q with
  | nil => intro rem m hm; simp [fifoLoop] at hm
  | cons e rest ih =>
    intro rem m hm
    by_cases h0 : 0 < rem
    · by_cases hc : e.quantity - min rem e.quantity = 0
      · simp only [fifoLoop, h0, hc, if_true, List.mem_cons] at hm
        rcases hm with hm | hm
        · exact ⟨e, _, hm⟩
        · exact ih _ m hm
      · simp only [fifoLoop, h0, hc, if_true, if_false, List.mem_singleton] at hm
        exact ⟨e, _, hm⟩
    · simp [fifoLoop, h0] at hm

/-! ## Per-step facts about `processTrade` -/

theorem processTrade_totalBuyQty (rtLegs : ℚ) (st : BookState) (t : Trade) :
    (processTrade rtLegs st t).totalBuyQty =
      st.totalBuyQty + (if t.side = "BUY" then t.quantity else 0) := by
  by_cases h : t.side = "BUY" <;> simp [processTrade, h]

theorem processTrade_totalSellQty (rtLegs : ℚ) (st : BookState) (t : Trade) :
    (processTrade rtLegs st t).totalSellQty =
      st.totalSellQty + (if t.side = "BUY" then 0 else t.quantity) := by
  by_cases h : t.side = "BUY" <;> simp [processTrade, h]

/-- One step preserves net-position conservation: the queues' net change
equals the signed traded quantity. -/
theorem processTrade_net (rtLegs : ℚ) (st : BookState) (t : Trade)
    (hq : 0 ≤ t.quantity) :
    sumQ (processTrade rtLegs st t).longQueue -
      sumQ (processTrade rtLegs st t).shortQueue =
    sumQ st.longQueue - sumQ st.shortQueue +
      (if t.side = "BUY" then t.quantity else -t.quantity) := by
  by_cases h : t.side = "BUY"
  · have hsum := fifoLoop_sum rtLegs t (st.entryIndex + 1) true st.shortQueue t.quantity
    have hnn := fifoLoop_rem_nonneg rtLegs t (st.entryIndex + 1) true st.shortQueue
      t.quantity hq
    simp only [processTrade, h, if_true, sumQ_append]
    set rem := (fifoLoop rtLegs t (st.entryIndex + 1) true t.quantity st.shortQueue).2.2
    by_cases hr : 0 < rem
    · simp only [hr, if_true, hsum]; simp [sumQ]; ring
    · have : rem = 0 := le_antisymm (not_lt.mp hr) hnn
      simp only [hr, if_false, hsum, this]; simp [sumQ]; ring
  · have hsum := fifoLoop_sum rtLegs t (st.entryIndex + 1) false st.longQueue t.quantity
    have hnn := fifoLoop_rem_nonneg rtLegs t (st.entryIndex + 1) false st.longQueue
      t.quantity hq
    simp only [processTrade, h, if_false, sumQ_append]
    set rem := (fifoLoop rtLegs t (st.entryIndex + 1) false t.quantity st.longQueue).2.2
    by_cases hr : 0 < rem
    · simp only [hr, if_true, hsum]; simp [sumQ]; ring
    · have : rem = 0 := le_antisymm (not_lt.mp hr) hnn
      simp only [hr, if_false, hsum, this]; simp [sumQ]; ring

theorem processTrade_matchList (rtLegs : ℚ) (st : BookState) (t : Trade) :
    ∃ ms, (processTrade rtLegs st t).matchList = st.matchList ++ ms ∧
      ∀ m ∈ ms, ∃ e mq, m = mkMatch rtLegs t (st.entryIndex + 1)
        (t.side = "BUY") e mq := by
  by_cases h : t.side = "BUY" <;>
    simp only [processTrade, h, if_true, if_false] <;>
    refine ⟨_, rfl, ?_⟩ <;> intro m hm
  · simpa [h] using fifoLoop_mem rtLegs t (st.entryIndex + 1) true _ _ m hm
  · simpa [h] using fifoLoop_mem rtLegs t (st.entryIndex + 1) false _ _ m hm

/-! ## Fold invariants over the trade list -/

theorem foldl_totalBuyQty (rtLegs : ℚ) :
    ∀ (l : List Trade) (st : BookState),
      (l.foldl (processTrade rtLegs) st).totalBuyQty =
        st.totalBuyQty +
          ((l.filter (fun t => t.side == "BUY")).map Trade.quantity).sum := by
  intro l
  induction l with
  | nil => intro st; simp
  | cons t rest ih =>
    intro st
    by_cases h : t.side = "BUY" <;>
      simp [List.foldl_cons, ih, processTrade_totalBuyQty, h, add_assoc]

theorem foldl_totalSellQty (rtLegs : ℚ) :
    ∀ (l : List Trade) (st : BookState),
      (l.foldl (processTrade rtLegs) st).totalSellQty =
        st.totalSellQty +
          ((l.filter (fun t => !(t.side == "BUY"))).map Trade.quantity).sum := by
  intro l
  induction l with
  | nil => intro st; simp
  | cons t rest ih =>
    intro st
    by_cases h : t.side = "BUY" <;>
      simp [List.foldl_cons, ih, processTrade_totalSellQty, h, add_assoc]

theorem foldl_net_conservation (rtLegs : ℚ) :
    ∀ (l : List Trade) (st : BookState), (∀ t ∈ l, 0 ≤ t.quantity) →
      sumQ st.longQueue - sumQ st.shortQueue = st.totalBuyQty - st.totalSellQty →
      sumQ (l.foldl (processTrade rtLegs) st).longQueue -
          sumQ (l.foldl (processTrade rtLegs) st).shortQueue =
        (l.foldl (processTrade rtLegs) st).totalBuyQty -
          (l.foldl (processTrade rtLegs) st).totalSellQty := by
  intro l
  induction l with
  | nil => intro st _ h; simpa using h
  | cons t rest ih =>
    intro st hq h
    refine ih (processTrade rtLegs st t) (fun u hu => hq u (List.mem_cons_of_mem _ hu)) ?_
    have hn := processTrade_net rtLegs st t (hq t (List.mem_cons_self _ _))
    rw [hn, processTrade_totalBuyQty, processTrade_totalSellQty]
    by_cases hs : t.side = "BUY" <;> simp [hs] <;> linarith

theorem foldl_matchList_forall (rtLegs : ℚ) (R : Match → Prop)
    (hR : ∀ t idx b e mq, R (mkMatch rtLegs t idx b e mq)) :
    ∀ (l : List Trade) (st : BookState), (∀ m ∈ st.matchList, R m) →
      ∀ m ∈ (l.foldl (processTrade rtLegs) st).matchList, R m := by
  intro l
  induction l with
  | nil => intro st h; simpa using h
  | cons t rest ih =>
    intro st h
    refine ih (processTrade rtLegs st t) ?_
    obtain ⟨ms, heq, hms⟩ := processTrade_matchList rtLegs st t
    rw [heq]
    intro m hm
    rcases List.mem_append.mp hm with hm | hm
    · exact h m hm
    · obtain ⟨e, mq, rfl⟩ := hms m hm
      exact hR _ _ _ _ _

/-! ## Claim C2: net position conservation -/

/-- C2.  For every trade sequence on one structure (every trade carrying
a nonnegative quantity, as all parsed trades do), the returned book
satisfies `netPosition = totalBuyQty - totalSellQty`, where `netPosition`
is `openLongQty - openShortQty`, the open quantities are the sums of the
remaining queue quantities, and `totalBuyQty`/`totalSellQty` are the sums
of all BUY/SELL trade quantities. -/
theorem fifo_net_position_conservation (trades : List Trade) (rtLegs : ℚ)
    (hq : ∀ t ∈ trades, 0 ≤ t.quantity) :
    (calculateFIFOPnL trades rtLegs).netPosition =
        (calculateFIFOPnL trades rtLegs).totalBuyQty -
          (calculateFIFOPnL trades rtLegs).totalSellQty ∧
    (calculateFIFOPnL trades rtLegs).netPosition =
        (calculateFIFOPnL trades rtLegs).openLongQty -
          (calculateFIFOPnL trades rtLegs).openShortQty ∧
    (calculateFIFOPnL trades rtLegs).openLongQty =
        ((calculateFIFOPnL trades rtLegs).longQueue.map QEntry.quantity).sum ∧
    (calculateFIFOPnL trades rtLegs).openShortQty =
        ((calculateFIFOPnL trades rtLegs).shortQueue.map QEntry.quantity).sum ∧
    (calculateFIFOPnL trades rtLegs).totalBuyQty =
        ((trades.filter (fun t => t.side == "BUY")).map Trade.quantity).sum ∧
    (calculateFIFOPnL trades rtLegs).totalSellQty =
        ((trades.filter (fun t => !(t.side == "BUY"))).map Trade.quantity).sum := by
  have hb := foldl_totalBuyQty rtLegs trades initBook
  have hs := foldl_totalSellQty rtLegs trades initBook
  have hc := foldl_net_conservation rtLegs trades initBook hq (by simp [initBook, sumQ])
  simp only [initBook, zero_add] at hb hs
  refine ⟨?_, rfl, rfl, rfl, ?_, ?_⟩
  · simpa [calculateFIFOPnL, runBook, sumQ] using hc
  · simpa [calculateFIFOPnL, runBook] using hb
  · simpa [calculateFIFOPnL, runBook] using hs

/-- Witness for C2 at a concrete input. -/
theorem fifo_net_position_conservation_witness :
    (∀ t ∈ [Trade.mk "BUY" 2 10 0 0, Trade.mk "SELL" 1 12 0 0], 0 ≤ t.quantity) ∧
    (calculateFIFOPnL [Trade.mk "BUY" 2 10 0 0, Trade.mk "SELL" 1 12 0 0] 1).netPosition =
      (calculateFIFOPnL [Trade.mk "BUY" 2 10 0 0, Trade.mk "SELL" 1 12 0 0] 1).totalBuyQty -
        (calculateFIFOPnL [Trade.mk "BUY" 2 10 0 0, Trade.mk "SELL" 1 12 0 0] 1).totalSellQty :=
  ⟨by decide,
    (fifo_net_position_conservation
      [Trade.mk "BUY" 2 10 0 0, Trade.mk "SELL" 1 12 0 0] 1 (by decide)).1⟩

/-! ## Claim C3: round-trip cost formula -/

/-- C3.  Every match produced by `calculateFIFOPnL` carries
`rtCost = rtLegs * 2 * matchQty * RT_COST_PER_LOT` and satisfies
`netPnLDollars = pnlDollars - rtCost`; at `rtLegs = 2`, `matchQty = 3`
and cost-per-leg `1.65` the round-trip cost is `19.80 = 99/5` dollars. -/
theorem match_rt_cost_formula :
    (∀ (trades : List Trade) (rtLegs : ℚ) (m : Match),
        m ∈ (calculateFIFOPnL trades rtLegs).matchList →
        m.rtCost = m.rtLegsEntry * 2 * m.matchQty * RT_COST_PER_LOT ∧
        m.rtLegsEntry = rtLegs ∧
        m.netPnLDollars = m.pnlDollars - m.rtCost) ∧
    calculateRTCost 3 2 = 99 / 5 := by
  constructor
  · intro trades rtLegs m hm
    have : ∀ m ∈ (runBook rtLegs trades).matchList,
        m.rtCost = m.rtLegsEntry * 2 * m.matchQty * RT_COST_PER_LOT ∧
        m.rtLegsEntry = rtLegs ∧
        m.netPnLDollars = m.pnlDollars - m.rtCost := by
      refine foldl_matchList_forall rtLegs _ ?_ trades initBook (by simp [initBook])
      intro t idx b e mq
      refine ⟨?_, rfl, rfl⟩
      simp only [mkMatch, calculateRTCost]
      ring
    exact this m hm
  · norm_num [calculateRTCost, RT_COST_PER_LOT]

/-- Witness for C3: the single match of BUY 3 then SELL 3 on an
`rtLegs = 2` structure costs `99/5 = 19.80` dollars. -/
theorem match_rt_cost_formula_witness :
    (Match.mk ⟨⟨"BUY", 3, 10, 0, 0⟩, 3, 3, 1⟩ ⟨"SELL", 3, 10, 7, 8⟩ 3 0 0
        (99/5) (-99/5) 2 4 "CLOSE_LONG" 7 8 1 2 ∈
      (calculateFIFOPnL [Trade.mk "BUY" 3 10 0 0, Trade.mk "SELL" 3 10 7 8] 2).matchList) ∧
    (Match.mk ⟨⟨"BUY", 3, 10, 0, 0⟩, 3, 3, 1⟩ ⟨"SELL", 3, 10, 7, 8⟩ 3 0 0
        (99/5) (-99/5) 2 4 "CLOSE_LONG" 7 8 1 2).rtCost =
      (2 : ℚ) * 2 * 3 * RT_COST_PER_LOT := by
  have hlist : (calculateFIFOPnL
      [Trade.mk "BUY" 3 10 0 0, Trade.mk "SELL" 3 10 7 8] 2).matchList =
      [Match.mk ⟨⟨"BUY", 3, 10, 0, 0⟩, 3, 3, 1⟩ ⟨"SELL", 3, 10, 7, 8⟩ 3 0 0
        (99/5) (-99/5) 2 4 "CLOSE_LONG" 7 8 1 2] := by
    norm_num [calculateFIFOPnL, runBook, processTrade, fifoLoop, mkMatch, initBook,
      min_def, pricePnLToDollars, priceToTicks, calculateRTCost, getTotalRTLegs,
      TICK_SIZE, TICK_VALUE, RT_COST_PER_LOT,
      show ("SELL" : String) ≠ "BUY" from by decide]
  have hmem : Match.mk ⟨⟨"BUY", 3, 10, 0, 0⟩, 3, 3, 1⟩ ⟨"SELL", 3, 10, 7, 8⟩ 3 0 0
      (99/5) (-99/5) 2 4 "CLOSE_LONG" 7 8 1 2 ∈
      (calculateFIFOPnL [Trade.mk "BUY" 3 10 0 0, Trade.mk "SELL" 3 10 7 8] 2).matchList := by
    rw [hlist]; exact List.mem_singleton_self _
  refine ⟨hmem, ?_⟩
  have h := (match_rt_cost_formula.1
    [Trade.mk "BUY" 3 10 0 0, Trade.mk "SELL" 3 10 7 8] 2 _ hmem).1
  rw [h]

/-! ## Claim C4: P&L sign correctness -/

/-- C4.  Every `CLOSE_LONG` match has
`pnl = matchQty * (sellPrice - buyPrice)` and every `COVER_SHORT` match
has `pnl = matchQty * (shortPrice - buyBackPrice)`; concretely, BUY 1 @ 10
then SELL 1 @ 12 yields exactly one match with `pnl = 2` of type
`CLOSE_LONG`, and SELL 1 @ 10 then BUY 1 @ 8 yields exactly one match
with `pnl = 2` of type `COVER_SHORT`. -/
theorem match_pnl_sign :
    (∀ (trades : List Trade) (rtLegs : ℚ) (m : Match),
        m ∈ (calculateFIFOPnL trades rtLegs).matchList →
        (m.type = "CLOSE_LONG" →
          m.pnl = m.matchQty * (m.closeTrade.price - m.openTrade.trade.price)) ∧
        (m.type = "COVER_SHORT" →
          m.pnl = m.matchQty * (m.openTrade.trade.price - m.closeTrade.price))) ∧
    (calculateFIFOPnL [Trade.mk "BUY" 1 10 0 0, Trade.mk "SELL" 1 12 0 0] 1).matchList.map
        (fun m => (m.pnl, m.type)) = [((2 : ℚ), "CLOSE_LONG")] ∧
    (calculateFIFOPnL [Trade.mk "SELL" 1 10 0 0, Trade.mk "BUY" 1 8 0 0] 1).matchList.map
        (fun m => (m.pnl, m.type)) = [((2 : ℚ), "COVER_SHORT")] := by
  refine ⟨?_, ?_, ?_⟩
  case refine_2 =>
    norm_num [calculateFIFOPnL, runBook, processTrade, fifoLoop, mkMatch, initBook,
      min_def, pricePnLToDollars, priceToTicks, calculateRTCost, getTotalRTLegs,
      TICK_SIZE, TICK_VALUE, RT_COST_PER_LOT,
      show ("SELL" : String) ≠ "BUY" from by decide]
  case refine_3 =>
    norm_num [calculateFIFOPnL, runBook, processTrade, fifoLoop, mkMatch, initBook,
      min_def, pricePnLToDollars, priceToTicks, calculateRTCost, getTotalRTLegs,
      TICK_SIZE, TICK_VALUE, RT_COST_PER_LOT,
      show ("SELL" : String) ≠ "BUY" from by decide]
  intro trades rtLegs m hm
  have : ∀ m ∈ (runBook rtLegs trades).matchList,
      (m.type = "CLOSE_LONG" →
        m.pnl = m.matchQty * (m.closeTrade.price - m.openTrade.trade.price)) ∧
      (m.type = "COVER_SHORT" →
        m.pnl = m.matchQty * (m.openTrade.trade.price - m.closeTrade.price)) := by
    refine foldl_matchList_forall rtLegs _ ?_ trades initBook (by simp [initBook])
    intro t idx b e mq
    cases b <;> simp [mkMatch]
  exact this m hm

/-- Witness for C4: the CLOSE_LONG match of BUY 1 @ 10, SELL 1 @ 12 has
`pnl = matchQty * (sell - buy)`. -/
theorem match_pnl_sign_witness :
    (Match.mk ⟨⟨"BUY", 1, 10, 0, 0⟩, 1, 1, 1⟩ ⟨"SELL", 1, 12, 0, 0⟩ 1 2 6600
        (33/10) (65967/10) 1 2 "CLOSE_LONG" 0 0 1 2 ∈
      (calculateFIFOPnL [Trade.mk "BUY" 1 10 0 0, Trade.mk "SELL" 1 12 0 0] 1).matchList) ∧
    (Match.mk ⟨⟨"BUY", 1, 10, 0, 0⟩, 1, 1, 1⟩ ⟨"SELL", 1, 12, 0, 0⟩ 1 2 6600
        (33/10) (65967/10) 1 2 "CLOSE_LONG" 0 0 1 2).pnl = 1 * ((12 : ℚ) - 10) := by
  have hlist : (calculateFIFOPnL
      [Trade.mk "BUY" 1 10 0 0, Trade.mk "SELL" 1 12 0 0] 1).matchList =
      [Match.mk ⟨⟨"BUY", 1, 10, 0, 0⟩, 1, 1, 1⟩ ⟨"SELL", 1, 12, 0, 0⟩ 1 2 6600
        (33/10) (65967/10) 1 2 "CLOSE_LONG" 0 0 1 2] := by
    norm_num [calculateFIFOPnL, runBook, processTrade, fifoLoop, mkMatch, initBook,
      min_def, pricePnLToDollars, priceToTicks, calculateRTCost, getTotalRTLegs,
      TICK_SIZE, TICK_VALUE, RT_COST_PER_LOT,
      show ("SELL" : String) ≠ "BUY" from by decide]
  have hmem : Match.mk ⟨⟨"BUY", 1, 10, 0, 0⟩, 1, 1, 1⟩ ⟨"SELL", 1, 12, 0, 0⟩ 1 2 6600
      (33/10) (65967/10) 1 2 "CLOSE_LONG" 0 0 1 2 ∈
      (calculateFIFOPnL [Trade.mk "BUY" 1 10 0 0, Trade.mk "SELL" 1 12 0 0] 1).matchList := by
    rw [hlist]; exact List.mem_singleton_self _
  refine ⟨hmem, ?_⟩
  have h := (match_pnl_sign.1
    [Trade.mk "BUY" 1 10 0 0, Trade.mk "SELL" 1 12 0 0] 1 _ hmem).1 rfl
  rw [h]

/-! ## Claim C1: strict FIFO consumption in entry order -/

/-- The match list a single trade appends to the book. -/
def newMatches (rtLegs : ℚ) (st : BookState) (t : Trade) : List Match :=
  (processTrade rtLegs st t).matchList.drop st.matchList.length

/-- The resting queue an incoming trade is matched against. -/
def oppQueue (st : BookState) (t : Trade) : List QEntry :=
  if t.side = "BUY" then st.shortQueue else st.longQueue

/-- The entry orders of the loop's matches are exactly the leading entry
orders of the queue it consumed, in queue order. -/
theorem fifoLoop_entryOrders (rtLegs : ℚ) (t : Trade) (idx : ℕ) (b : Bool) :
    ∀ (q : List QEntry) (rem : ℚ),
      ((fifoLoop rtLegs t idx b rem q).1).map Match.entryOrder =
        (q.map QEntry.entryOrder).take ((fifoLoop rtLegs t idx b rem q).1).length := by
  intro q
  induction q with
  | nil => intro rem; simp [fifoLoop]
  | cons e rest ih =>
    intro rem
    by_cases h0 : 0 < rem
    · by_cases hc : e.quantity - min rem e.quantity = 0
      · simp only [fifoLoop, h0, hc, if_true, List.map_cons, List.length_cons,
          List.take_succ_cons, List.map]
        exact congrArg (List.cons _) (ih _)
      · simp [fifoLoop, h0, hc, mkMatch]
    · simp [fifoLoop, h0]

/-- The queue left by the loop carries a suffix of the original entry
orders. -/
theorem fifoLoop_queue_orders (rtLegs : ℚ) (t : Trade) (idx : ℕ) (b : Bool) :
    ∀ (q : List QEntry) (rem : ℚ), ∃ k,
      ((fifoLoop rtLegs t idx b rem q).2.1).map QEntry.entryOrder =
        (q.map QEntry.entryOrder).drop k := by
  intro q
  induction q with
  | nil => exact fun rem => ⟨0, by simp [fifoLoop]⟩
  | cons e rest ih =>
    intro rem
    by_cases h0 : 0 < rem
    · by_cases hc : e.quantity - min rem e.quantity = 0
      · obtain ⟨k, hk⟩ := ih (rem - min rem e.quantity)
        exact ⟨k + 1, by simpa [fifoLoop, h0, hc] using hk⟩
      · exact ⟨0, by simp [fifoLoop, h0, hc]⟩
    · exact ⟨0, by simp [fifoLoop, h0]⟩

/-- Reachability invariant: both queues are strictly sorted by entry
order and every resting entry was tagged no later than the current entry
counter. -/
def QueuesOrdered (st : BookState) : Prop :=
  (st.longQueue.map QEntry.entryOrder).Sorted (· < ·) ∧
  (st.shortQueue.map QEntry.entryOrder).Sorted (· < ·) ∧
  (∀ e ∈ st.longQueue, e.entryOrder ≤ st.entryIndex) ∧
  (∀ e ∈ st.shortQueue, e.entryOrder ≤ st.entryIndex)

theorem queuesOrdered_init : QueuesOrdered initBook := by
  simp [QueuesOrdered, initBook]

theorem processTrade_queuesOrdered (rtLegs : ℚ) (st : BookState) (t : Trade)
    (h : QueuesOrdered st) : QueuesOrdered (processTrade rtLegs st t) := by
  obtain ⟨hl, hs, hbl, hbs⟩ := h
  by_cases hside : t.side = "BUY"
  · obtain ⟨k, hk⟩ := fifoLoop_queue_orders rtLegs t (st.entryIndex + 1) true
      st.shortQueue t.quantity
    constructor
    · -- long queue: old entries plus possibly one new with larger entryOrder
      simp only [processTrade, hside, if_true, List.map_append]
      rw [List.Sorted, List.pairwise_append]
      refine ⟨hl, ?_, ?_⟩
      · split <;> simp
      · intro a ha b hb
        split at hb
        · simp only [List.map_cons, List.map_nil, List.mem_singleton] at hb
          subst hb
          obtain ⟨e, he, rfl⟩ := List.mem_map.mp ha
          exact Nat.lt_succ_of_le (hbl e he)
        · simp at hb
    refine ⟨?_, ?_, ?_⟩
    · -- short queue: suffix of the old one
      simp only [processTrade, hside, if_true]
      rw [hk]
      exact hs.sublist (List.drop_sublist _ _)
    · -- long-queue bound
      intro e he
      simp only [processTrade, hside, if_true, List.mem_append] at he ⊢
      rcases he with he | he
      · exact Nat.le_succ_of_le (hbl e he)
      · split at he
        · simp only [List.mem_singleton] at he; subst he; rfl
        · simp at he
    · -- short-queue bound
      intro e he
      simp only [processTrade, hside, if_true] at he ⊢
      have : e.entryOrder ∈ (st.shortQueue.map QEntry.entryOrder).drop k := by
        rw [← hk]; exact List.mem_map_of_mem _ he
      have := List.mem_of_mem_drop this
      obtain ⟨e2, he2, heq⟩ := List.mem_map.mp this
      rw [← heq]
      exact Nat.le_succ_of_le (hbs e2 he2)
  · obtain ⟨k, hk⟩ := fifoLoop_queue_orders rtLegs t (st.entryIndex + 1) false
      st.longQueue t.quantity
    refine ⟨?_, ?_, ?_, ?_⟩
    · simp only [processTrade, hside, if_false]
      rw [hk]
      exact hl.sublist (List.drop_sublist _ _)
    · simp only [processTrade, hside, if_false, List.map_append]
      rw [List.Sorted, List.pairwise_append]
      refine ⟨hs, ?_, ?_⟩
      · split <;> simp
      · intro a ha b hb
        split at hb
        · simp only [List.map_cons, List.map_nil, List.mem_singleton] at hb
          subst hb
          obtain ⟨e, he, rfl⟩ := List.mem_map.mp ha
          exact Nat.lt_succ_of_le (hbs e he)
        · simp at hb
    · intro e he
      simp only [processTrade, hside, if_false] at he ⊢
      have : e.entryOrder ∈ (st.longQueue.map QEntry.entryOrder).drop k := by
        rw [← hk]; exact List.mem_map_of_mem _ he
      have := List.mem_of_mem_drop this
      obtain ⟨e2, he2, heq⟩ := List.mem_map.mp this
      rw [← heq]
      exact Nat.le_succ_of_le (hbl e2 he2)
    · intro e he
      simp only [processTrade, hside, if_false, List.mem_append] at he ⊢
      rcases he with he | he
      · exact Nat.le_succ_of_le (hbs e he)
      · split at he
        · simp only [List.mem_singleton] at he; subst he; rfl
        · simp at he

theorem runBook_queuesOrdered (rtLegs : ℚ) (trades : List Trade) :
    QueuesOrdered (runBook rtLegs trades) := by
  rw [runBook]
  generalize hst : initBook = st
  have h : QueuesOrdered st := hst ▸ queuesOrdered_init
  clear hst
  induction trades generalizing st with
  | nil => simpa using h
  | cons t rest ih =>
    simpa using ih (processTrade rtLegs st t) (processTrade_queuesOrdered rtLegs st t h)

/-! ## Timestamp independence of matching -/

/-- Rewrite a trade's timestamp and date fields, leaving side, quantity
and price untouched. -/
def retime (f g : ℤ → ℤ) (t : Trade) : Trade :=
  { t with timestamp := f t.timestamp, date := g t.date }

/-- Lift `retime` to queue entries. -/
def retimeQ (f g : ℤ → ℤ) (e : QEntry) : QEntry :=
  { e with trade := retime f g e.trade }

/-- Lift `retime` to match records. -/
def retimeM (f g : ℤ → ℤ) (m : Match) : Match :=
  { m with openTrade := retimeQ f g m.openTrade,
           closeTrade := retime f g m.closeTrade,
           closedAt := f m.closedAt,
           closeDate := g m.closeDate }

/-- Lift `retime` to the whole engine state. -/
def retimeSt (f g : ℤ → ℤ) (st : BookState) : BookState :=
  { st with longQueue := st.longQueue.map (retimeQ f g),
            shortQueue := st.shortQueue.map (retimeQ f g),
            matchList := st.matchList.map (retimeM f g) }

theorem retime_side (f g : ℤ → ℤ) (t : Trade) : (retime f g t).side = t.side := rfl

theorem retime_quantity (f g : ℤ → ℤ) (t : Trade) :
    (retime f g t).quantity = t.quantity := rfl

theorem retime_price (f g : ℤ → ℤ) (t : Trade) : (retime f g t).price = t.price := rfl

theorem mkMatch_retime (f g : ℤ → ℤ) (rtLegs : ℚ) (t : Trade) (idx : ℕ)
    (b : Bool) (e : QEntry) (mq : ℚ) :
    mkMatch rtLegs (retime f g t) idx b (retimeQ f g e) mq =
      retimeM f g (mkMatch rtLegs t idx b e mq) := by
  cases b <;> rfl

theorem fifoLoop_retime (f g : ℤ → ℤ) (rtLegs : ℚ) (t : Trade) (idx : ℕ)
    (b : Bool) : ∀ (q : List QEntry) (rem : ℚ),
    fifoLoop rtLegs (retime f g t) idx b rem (q.map (retimeQ f g)) =
      ((fifoLoop rtLegs t idx b rem q).1.map (retimeM f g),
       (fifoLoop rtLegs t idx b rem q).2.1.map (retimeQ f g),
       (fifoLoop rtLegs t idx b rem q).2.2) := by
  intro q
  induction q with
  | nil => intro rem; simp [fifoLoop]
  | cons e rest ih =>
    intro rem
    have hq : (retimeQ f g e).quantity = e.quantity := rfl
    by_cases h0 : 0 < rem
    · by_cases hc : e.quantity - min rem e.quantity = 0
      · simp only [List.map_cons, fifoLoop, hq, h0, hc, if_true, ih,
          mkMatch_retime, List.map]
      · simp only [List.map_cons, fifoLoop, hq, h0, hc, if_true, if_false,
          mkMatch_retime, List.map]
        refine congrArg₂ _ rfl (congrArg₂ _ ?_ rfl)
        simp [retimeQ]
    · simp [fifoLoop, h0]

theorem retimeM_pnl (f g : ℤ → ℤ) (m : Match) : (retimeM f g m).pnl = m.pnl := rfl

theorem retimeM_pnlDollars (f g : ℤ → ℤ) (m : Match) :
    (retimeM f g m).pnlDollars = m.pnlDollars := rfl

theorem retimeM_rtCost (f g : ℤ → ℤ) (m : Match) :
    (retimeM f g m).rtCost = m.rtCost := rfl

theorem retimeM_netPnLDollars (f g : ℤ → ℤ) (m : Match) :
    (retimeM f g m).netPnLDollars = m.netPnLDollars := rfl

theorem processTrade_retime (f g : ℤ → ℤ) (rtLegs : ℚ) (st : BookState)
    (t : Trade) :
    processTrade rtLegs (retimeSt f g st) (retime f g t) =
      retimeSt f g (processTrade rtLegs st t) := by
  by_cases hside : t.side = "BUY" <;>
    simp only [processTrade, retimeSt, retime_side, retime_quantity, retime_price,
      hside, if_true, if_false, fifoLoop_retime, List.map_append, List.map_map,
      apply_ite (List.map (retimeQ f g)), List.map_cons, List.map_nil,
      Function.comp_def, retimeM_pnl, retimeM_pnlDollars, retimeM_rtCost,
      retimeM_netPnLDollars, retimeQ]

theorem foldl_retime (f g : ℤ → ℤ) (rtLegs : ℚ) :
    ∀ (l : List Trade) (st : BookState),
      (l.map (retime f g)).foldl (processTrade rtLegs) (retimeSt f g st) =
        retimeSt f g (l.foldl (processTrade rtLegs) st) := by
  intro l
  induction l with
  | nil => intro st; rfl
  | cons t rest ih =>
    intro st
    simp only [List.map_cons, List.foldl_cons, processTrade_retime, ih]

theorem runBook_retime (f g : ℤ → ℤ) (rtLegs : ℚ) (trades : List Trade) :
    runBook rtLegs (trades.map (retime f g)) =
      retimeSt f g (runBook rtLegs trades) := by
  rw [runBook, runBook, show (initBook : BookState) = retimeSt f g initBook from rfl]
  exact foldl_retime f g rtLegs trades initBook

/-- The matches a trade appends are the inner loop's matches against the
opposing queue. -/
theorem newMatches_eq (rtLegs : ℚ) (st : BookState) (t : Trade) :
    newMatches rtLegs st t =
      (fifoLoop rtLegs t (st.entryIndex + 1) (decide (t.side = "BUY"))
        t.quantity (oppQueue st t)).1 := by
  by_cases h : t.side = "BUY" <;>
    simp [newMatches, processTrade, oppQueue, h, List.drop_left]

/-- In a strictly sorted list, the element at position `i` is a lower
bound of everything from position `i` on. -/
theorem sorted_get_le_of_mem_drop {l : List ℕ} (hs : l.Sorted (· < ·))
    (i : ℕ) (hi : i < l.length) :
    ∀ x ∈ l.drop i, l.get ⟨i, hi⟩ ≤ x := by
  intro x hx
  have hdrop : (l.drop i).Sorted (· < ·) := hs.sublist (List.drop_sublist _ _)
  rw [List.drop_eq_getElem_cons hi] at hx hdrop
  rcases List.mem_cons.mp hx with hx | hx
  · simp [hx, List.get_eq_getElem]
  · have := List.rel_of_sorted_cons hdrop x hx
    simp only [List.get_eq_getElem]
    exact le_of_lt this

/-- Membership in `(xs.drop i).take 1` picks out exactly the element at
position `i`. -/
theorem mem_drop_take_one {α : Type} {xs : List α} {i : ℕ} {m : α}
    (hm : m ∈ (xs.drop i).take 1) : ∃ h : i < xs.length, m = xs.get ⟨i, h⟩ := by
  by_cases hi : i < xs.length
  · rw [List.drop_eq_getElem_cons hi] at hm
    simp only [List.take_succ_cons, List.take_zero, List.mem_singleton] at hm
    exact ⟨hi, by simp [hm, List.get_eq_getElem]⟩
  · rw [List.drop_eq_nil_of_le (le_of_not_lt hi)] at hm
    simp at hm

/-- C1.  FIFO matching consumes resting entries strictly oldest-first,
processing the input in array order and ignoring timestamps: (i) the
matches an incoming trade produces take their `entryOrder`s from the
front of the opposing queue, in order; (ii) that queue is strictly sorted
by `entryOrder`, so (iii) each successive match pairs the incoming trade
with the smallest `entryOrder` still resting; (iv) the book is computed
by folding the trade list in array position order; and (v) rewriting
every timestamp and date arbitrarily changes no match structure
(entry/exit order, quantity, price P&L, type) — the engine never sorts by
timestamp. -/
theorem fifo_oldest_first (rtLegs : ℚ) (pre : List Trade) (t : Trade) :
    ((newMatches rtLegs (runBook rtLegs pre) t).map Match.entryOrder =
      ((oppQueue (runBook rtLegs pre) t).map QEntry.entryOrder).take
        (newMatches rtLegs (runBook rtLegs pre) t).length) ∧
    ((oppQueue (runBook rtLegs pre) t).map QEntry.entryOrder).Sorted (· < ·) ∧
    (∀ (i : ℕ), ∀ m ∈ ((newMatches rtLegs (runBook rtLegs pre) t).drop i).take 1,
      ∀ e ∈ (oppQueue (runBook rtLegs pre) t).drop i,
        m.entryOrder ≤ e.entryOrder) ∧
    (∀ (trades post : List Trade), trades = pre ++ t :: post →
      runBook rtLegs trades =
        post.foldl (processTrade rtLegs)
          (processTrade rtLegs (runBook rtLegs pre) t)) ∧
    (∀ (trades : List Trade) (f g : ℤ → ℤ),
      ((calculateFIFOPnL (trades.map (retime f g)) rtLegs).matchList).map
          (fun m => (m.entryOrder, m.exitOrder, m.matchQty, m.pnl, m.type)) =
        ((calculateFIFOPnL trades rtLegs).matchList).map
          (fun m => (m.entryOrder, m.exitOrder, m.matchQty, m.pnl, m.type))) := by
  have hinv := runBook_queuesOrdered rtLegs pre
  have hsorted : ((oppQueue (runBook rtLegs pre) t).map QEntry.entryOrder).Sorted
      (· < ·) := by
    by_cases h : t.side = "BUY"
    · simpa [oppQueue, h] using hinv.2.1
    · simpa [oppQueue, h] using hinv.1
  have hpre : (newMatches rtLegs (runBook rtLegs pre) t).map Match.entryOrder =
      ((oppQueue (runBook rtLegs pre) t).map QEntry.entryOrder).take
        (newMatches rtLegs (runBook rtLegs pre) t).length := by
    rw [newMatches_eq]
    exact fifoLoop_entryOrders rtLegs t _ _ _ _
  refine ⟨hpre, hsorted, ?_, ?_, ?_⟩
  · -- minimality against the still-resting entries
    intro i m hm e he
    set ms := newMatches rtLegs (runBook rtLegs pre) t with hms
    set q := oppQueue (runBook rtLegs pre) t with hq
    obtain ⟨hi, rfl⟩ := mem_drop_take_one hm
    have hlen : ms.length ≤ q.length := by
      have := congrArg List.length hpre
      simp only [List.length_map, List.length_take] at this
      omega
    have hiq : i < (q.map QEntry.entryOrder).length := by
      simp only [List.length_map]; omega
    have hval : (ms.get ⟨i, hi⟩).entryOrder = (q.map QEntry.entryOrder).get ⟨i, hiq⟩ := by
      have h2 := List.getElem_of_eq hpre (by simpa using hi)
      simpa [List.get_eq_getElem, List.getElem_map, List.getElem_take] using h2
    rw [hval]
    have hmem : e.entryOrder ∈ (q.map QEntry.entryOrder).drop i := by
      rw [← List.map_drop]
      exact List.mem_map_of_mem _ he
    exact sorted_get_le_of_mem_drop hsorted i hiq e.entryOrder hmem
  · -- array-order processing
    intro trades post htr
    subst htr
    simp [runBook, List.foldl_append]
  · -- timestamp irrelevance
    intro trades f g
    show ((runBook rtLegs (trades.map (retime f g))).matchList).map _ =
      ((runBook rtLegs trades).matchList).map _
    rw [runBook_retime]
    simp [retimeSt, List.map_map, Function.comp_def, retimeM]

/-- Witness for C1 at the spec's interleaved example BUY 2 @ 10,
BUY 3 @ 11, then SELL 4 @ 12: the two matches drain the long queue
oldest-first, and the first match takes the entry with the smallest
entry order. -/
theorem fifo_oldest_first_witness :
    ((newMatches 1 (runBook 1 [Trade.mk "BUY" 2 10 0 0, Trade.mk "BUY" 3 11 0 0])
        (Trade.mk "SELL" 4 12 0 0)).map Match.entryOrder =
      ((oppQueue (runBook 1 [Trade.mk "BUY" 2 10 0 0, Trade.mk "BUY" 3 11 0 0])
          (Trade.mk "SELL" 4 12 0 0)).map QEntry.entryOrder).take
        (newMatches 1 (runBook 1 [Trade.mk "BUY" 2 10 0 0, Trade.mk "BUY" 3 11 0 0])
          (Trade.mk "SELL" 4 12 0 0)).length) ∧
    (Match.mk ⟨⟨"BUY", 2, 10, 0, 0⟩, 2, 2, 1⟩ ⟨"SELL", 4, 12, 0, 0⟩ 2 4 13200
        (33/5) (65967/5) 1 2 "CLOSE_LONG" 0 0 1 3).entryOrder ≤
      (QEntry.mk ⟨"BUY", 3, 11, 0, 0⟩ 3 3 2).entryOrder := by
  have hms : newMatches 1
      (runBook 1 [Trade.mk "BUY" 2 10 0 0, Trade.mk "BUY" 3 11 0 0])
      (Trade.mk "SELL" 4 12 0 0) =
      [Match.mk ⟨⟨"BUY", 2, 10, 0, 0⟩, 2, 2, 1⟩ ⟨"SELL", 4, 12, 0, 0⟩ 2 4 13200
        (33/5) (65967/5) 1 2 "CLOSE_LONG" 0 0 1 3,
       Match.mk ⟨⟨"BUY", 3, 11, 0, 0⟩, 3, 3, 2⟩ ⟨"SELL", 4, 12, 0, 0⟩ 2 2 6600
        (33/5) (32967/5) 1 2 "CLOSE_LONG" 0 0 2 3] := by
    norm_num [newMatches, runBook, processTrade, fifoLoop, mkMatch, initBook,
      oppQueue, min_def, pricePnLToDollars, priceToTicks, calculateRTCost,
      getTotalRTLegs, TICK_SIZE, TICK_VALUE, RT_COST_PER_LOT,
      show ("SELL" : String) ≠ "BUY" from by decide]
  have hq : oppQueue
      (runBook 1 [Trade.mk "BUY" 2 10 0 0, Trade.mk "BUY" 3 11 0 0])
      (Trade.mk "SELL" 4 12 0 0) =
      [QEntry.mk ⟨"BUY", 2, 10, 0, 0⟩ 2 2 1, QEntry.mk ⟨"BUY", 3, 11, 0, 0⟩ 3 3 2] := by
    norm_num [runBook, processTrade, fifoLoop, mkMatch, initBook,
      oppQueue, min_def, pricePnLToDollars, priceToTicks, calculateRTCost,
      getTotalRTLegs, TICK_SIZE, TICK_VALUE, RT_COST_PER_LOT,
      show ("SELL" : String) ≠ "BUY" from by decide]
  refine ⟨(fifo_oldest_first 1 [Trade.mk "BUY" 2 10 0 0, Trade.mk "BUY" 3 11 0 0]
    (Trade.mk "SELL" 4 12 0 0)).1, ?_⟩
  refine (fifo_oldest_first 1 [Trade.mk "BUY" 2 10 0 0, Trade.mk "BUY" 3 11 0 0]
    (Trade.mk "SELL" 4 12 0 0)).2.2.1 0 _ ?_ _ ?_
  · rw [hms]; simp
  · rw [hq]; simp

/-! ## P&L statistics (`calculatePnLStats`, scratch-aware version) -/

/-- JS `Math.round`: round half toward positive infinity. -/
def jsRound (x : ℚ) : ℤ := ⌊x + 1 / 2⌋

/-- JS `Math.max(...l)` over a nonempty list (callers guard emptiness). -/
def jsMaxList (l : List ℚ) : ℚ :=
  match l with
  | [] => 0
  | x :: xs => xs.foldl max x

/-- JS `Math.min(...l)` over a nonempty list (callers guard emptiness). -/
def jsMinList (l : List ℚ) : ℚ :=
  match l with
  | [] => 0
  | x :: xs => xs.foldl min x

/-- The statistics object returned by `calculatePnLStats`.  The
`tickCapture` sub-report (a chart-shaped nested object built by
`calculateTickCapture`) is not touched by any verified property and is
not modelled.  On the empty-input path the JS object names its volume and
leg-count keys `totalVolume`/`totalRTs` instead of
`totalLots`/`totalRTLegs`; both pairs are zero there and are modelled by
the same two fields. -/
structure Stats where
  totalTrades : ℕ
  winningTrades : ℕ
  losingTrades : ℕ
  scratchTrades : ℕ
  winRate : ℚ
  scratchRate : ℚ
  avgWin : ℚ
  avgLoss : ℚ
  avgWinDollars : ℚ
  avgLossDollars : ℚ
  maxWin : ℚ
  maxLoss : ℚ
  maxWinDollars : ℚ
  maxLossDollars : ℚ
  profitFactor : ExtNum ℚ
  totalLots : ℚ
  totalRTLegs : ℤ
  deriving DecidableEq, Repr

/-- JS `calculatePnLStats(matches)` (the scratch-aware version): wins are
matches with positive gross dollars, losses negative, scratches exactly
zero; dollar totals are summed over net dollars; the win rate excludes
scratches from its denominator. -/
def calculatePnLStats (ms : List Match) : Stats :=
  if ms.length = 0 then
    ⟨0, 0, 0, 0, 0, 0, 0, 0, 0, 0, 0, 0, 0, 0, .num 0, 0, 0⟩
  else
    let wins := ms.filter (fun m => 0 < m.pnlDollars)
    let scratches := ms.filter (fun m => m.pnlDollars = 0)
    let losses := ms.filter (fun m => m.pnlDollars < 0)
    let totalWins := (wins.map Match.pnl).sum
    let totalLosses := |(losses.map Match.pnl).sum|
    let totalWinsDollars := (wins.map Match.netPnLDollars).sum
    let totalLossesDollars := |(losses.map Match.netPnLDollars).sum|
    let totalLots := (ms.map Match.matchQty).sum
    let totalRTCostFromMatches := (ms.map Match.rtCost).sum
    let decisiveTrades := wins.length + losses.length
    { totalTrades := ms.length
      winningTrades := wins.length
      losingTrades := losses.length
      scratchTrades := scratches.length
      winRate := if 0 < decisiveTrades then
        ((wins.length : ℚ) / (decisiveTrades : ℚ)) * 100 else 0
      scratchRate := if 0 < ms.length then
        ((scratches.length : ℚ) / (ms.length : ℚ)) * 100 else 0
      avgWin := if 0 < wins.length then totalWins / (wins.length : ℚ) else 0
      avgLoss := if 0 < losses.length then totalLosses / (losses.length : ℚ) else 0
      avgWinDollars := if 0 < wins.length then
        totalWinsDollars / (wins.length : ℚ) else 0
      avgLossDollars := if 0 < losses.length then
        totalLossesDollars / (losses.length : ℚ) else 0
      maxWin := if 0 < wins.length then jsMaxList (wins.map Match.pnl) else 0
      maxLoss := if 0 < losses.length then jsMinList (losses.map Match.pnl) else 0
      maxWinDollars := if 0 < wins.length then
        jsMaxList (wins.map Match.netPnLDollars) else 0
      maxLossDollars := if 0 < losses.length then
        jsMinList (losses.map Match.netPnLDollars) else 0
      profitFactor := if 0 < totalLossesDollars then
          .num (totalWinsDollars / totalLossesDollars)
        else if 0 < totalWinsDollars then .inf else .num 0
      totalLots := totalLots
      totalRTLegs := jsRound (totalRTCostFromMatches / (33 / 20)) }

/-- Three-way sign partition of a match list. -/
theorem sign_partition (ms : List Match) :
    (ms.filter (fun m => 0 < m.pnlDollars)).length +
      (ms.filter (fun m => m.pnlDollars < 0)).length +
      (ms.filter (fun m => m.pnlDollars = 0)).length = ms.length := by
  induction ms with
  | nil => simp
  | cons m rest ih =>
    rcases lt_trichotomy m.pnlDollars 0 with h | h | h
    · have h1 : ¬(0 < m.pnlDollars) := by linarith
      have h2 : ¬(m.pnlDollars = 0) := by linarith
      simp only [List.filter_cons]
      simp [h, h1, h2]
      omega
    · have h1 : ¬(0 < m.pnlDollars) := by simp [h]
      have h2 : ¬(m.pnlDollars < 0) := by simp [h]
      simp only [List.filter_cons]
      simp [h, h1, h2]
      omega
    · have h1 : ¬(m.pnlDollars < 0) := by linarith
      have h2 : ¬(m.pnlDollars = 0) := by linarith
      simp only [List.filter_cons]
      simp [h, h1, h2]
      omega

/-- C5.  `calculatePnLStats` classifies a match as a win exactly when its
gross `pnlDollars` is positive, a loss exactly when negative, and a
scratch exactly when zero; scratches are excluded from the win and loss
counts but included in `totalTrades` (the three counts partition it); and
`winRate = wins / (wins + losses) * 100`, scratches excluded from the
denominator (`0` when there are no decisive trades, matching the
division-by-zero convention of `ℚ`). -/
theorem pnl_stats_classification (ms : List Match) :
    (calculatePnLStats ms).winningTrades =
      (ms.filter (fun m => 0 < m.pnlDollars)).length ∧
    (calculatePnLStats ms).losingTrades =
      (ms.filter (fun m => m.pnlDollars < 0)).length ∧
    (calculatePnLStats ms).scratchTrades =
      (ms.filter (fun m => m.pnlDollars = 0)).length ∧
    (calculatePnLStats ms).totalTrades = ms.length ∧
    (calculatePnLStats ms).winningTrades + (calculatePnLStats ms).losingTrades +
      (calculatePnLStats ms).scratchTrades = (calculatePnLStats ms).totalTrades ∧
    (calculatePnLStats ms).winRate =
      ((calculatePnLStats ms).winningTrades : ℚ) /
        (((calculatePnLStats ms).winningTrades + (calculatePnLStats ms).losingTrades : ℕ) : ℚ)
        * 100 := by
  by_cases h : ms.length = 0
  · rw [List.length_eq_zero] at h
    subst h
    simp [calculatePnLStats]
  · have hlen : ¬ms.length = 0 := h
    constructor
    · simp [calculatePnLStats, hlen]
    constructor
    · simp [calculatePnLStats, hlen]
    constructor
    · simp [calculatePnLStats, hlen]
    constructor
    · simp [calculatePnLStats, hlen]
    constructor
    · simp only [calculatePnLStats, hlen, if_false]
      exact sign_partition ms
    · simp only [calculatePnLStats, hlen, if_false]
      by_cases hd : 0 < (ms.filter (fun m => 0 < m.pnlDollars)).length +
          (ms.filter (fun m => m.pnlDollars < 0)).length
      · simp [hd]
      · have hw : (ms.filter (fun m => 0 < m.pnlDollars)).length = 0 := by omega
        have hl : (ms.filter (fun m => m.pnlDollars < 0)).length = 0 := by omega
        simp [hd, hw, hl]

/-! ## Claim C6: profit factor and empty-input behaviour (corrected) -/

/-- Counterexample to C6 as stated: a single realized match that is a
gross win (`pnlDollars > 0`) but a net loss (`netPnLDollars < 0`) — one
tick captured on a six-leg structure, fees exceed the gross gain.  The
loss bucket totals zero and a winning match exists, yet `profitFactor`
is `0`, not `Infinity`: the code tests `totalWinsDollars > 0` (the net
dollar total of the gross winners), not whether wins exist. -/
theorem profit_factor_counterexample :
    (calculatePnLStats (calculateFIFOPnL
        [Trade.mk "BUY" 1 0 0 0, Trade.mk "SELL" 1 (1/200) 0 0] 6).matchList).winningTrades
        = 1 ∧
    (calculatePnLStats (calculateFIFOPnL
        [Trade.mk "BUY" 1 0 0 0, Trade.mk "SELL" 1 (1/200) 0 0] 6).matchList).losingTrades
        = 0 ∧
    (calculatePnLStats (calculateFIFOPnL
        [Trade.mk "BUY" 1 0 0 0, Trade.mk "SELL" 1 (1/200) 0 0] 6).matchList).profitFactor
        = ExtNum.num 0 ∧
    (calculatePnLStats (calculateFIFOPnL
        [Trade.mk "BUY" 1 0 0 0, Trade.mk "SELL" 1 (1/200) 0 0] 6).matchList).profitFactor
        ≠ ExtNum.inf := by
  have hlist : (calculateFIFOPnL
      [Trade.mk "BUY" 1 0 0 0, Trade.mk "SELL" 1 (1/200) 0 0] 6).matchList =
      [Match.mk ⟨⟨"BUY", 1, 0, 0, 0⟩, 1, 1, 1⟩ ⟨"SELL", 1, 1/200, 0, 0⟩ 1 (1/200)
        (33/2) (99/5) (-33/10) 6 12 "CLOSE_LONG" 0 0 1 2] := by
    norm_num [calculateFIFOPnL, runBook, processTrade, fifoLoop, mkMatch, initBook,
      min_def, pricePnLToDollars, priceToTicks, calculateRTCost, getTotalRTLegs,
      TICK_SIZE, TICK_VALUE, RT_COST_PER_LOT,
      show ("SELL" : String) ≠ "BUY" from by decide]
  rw [hlist]
  norm_num [calculatePnLStats, List.filter]
  decide

/-- C6 as amended.  `profitFactor` is the gross winners' net-dollar total
divided by the absolute net-dollar total of the gross losers; when the
loss total is zero it is `Infinity` exactly when the winners' net total
is positive (not merely when winning matches exist), else `0`; and the
empty (or null) match list returns the all-zero statistics record. -/
theorem profit_factor_amended (ms : List Match) :
    ((0 < |((ms.filter (fun m => m.pnlDollars < 0)).map Match.netPnLDollars).sum| →
      (calculatePnLStats ms).profitFactor =
        ExtNum.num
          ((((ms.filter (fun m => 0 < m.pnlDollars)).map Match.netPnLDollars).sum) /
            |((ms.filter (fun m => m.pnlDollars < 0)).map Match.netPnLDollars).sum|)) ∧
     (|((ms.filter (fun m => m.pnlDollars < 0)).map Match.netPnLDollars).sum| = 0 →
      (calculatePnLStats ms).profitFactor =
        (if 0 < ((ms.filter (fun m => 0 < m.pnlDollars)).map Match.netPnLDollars).sum
         then ExtNum.inf else ExtNum.num 0))) ∧
    calculatePnLStats [] =
      ⟨0, 0, 0, 0, 0, 0, 0, 0, 0, 0, 0, 0, 0, 0, ExtNum.num 0, 0, 0⟩ := by
  constructor
  · by_cases h : ms.length = 0
    · rw [List.length_eq_zero] at h
      subst h
      constructor
      · intro habs; simp at habs
      · intro _; simp [calculatePnLStats]
    · constructor
      · intro habs
        simp only [calculatePnLStats, h, if_false]
        rw [if_pos habs]
      · intro habs
        simp only [calculatePnLStats, h, if_false]
        rw [if_neg (by rw [habs]; exact lt_irrefl 0)]
  · simp [calculatePnLStats]

/-- Witness for C6 as amended: a single losing short round trip gives a
positive loss total, and the theorem computes its profit factor. -/
theorem profit_factor_amended_witness :
    (0 < |(((calculateFIFOPnL [Trade.mk "SELL" 1 8 0 0, Trade.mk "BUY" 1 10 0 0]
          1).matchList.filter (fun m => m.pnlDollars < 0)).map
            Match.netPnLDollars).sum|) ∧
    (calculatePnLStats (calculateFIFOPnL
        [Trade.mk "SELL" 1 8 0 0, Trade.mk "BUY" 1 10 0 0] 1).matchList).profitFactor =
      ExtNum.num 0 := by
  have hlist : (calculateFIFOPnL
      [Trade.mk "SELL" 1 8 0 0, Trade.mk "BUY" 1 10 0 0] 1).matchList =
      [Match.mk ⟨⟨"SELL", 1, 8, 0, 0⟩, 1, 1, 1⟩ ⟨"BUY", 1, 10, 0, 0⟩ 1 (-2)
        (-6600) (33/10) (-66033/10) 1 2 "COVER_SHORT" 0 0 1 2] := by
    norm_num [calculateFIFOPnL, runBook, processTrade, fifoLoop, mkMatch, initBook,
      min_def, pricePnLToDollars, priceToTicks, calculateRTCost, getTotalRTLegs,
      TICK_SIZE, TICK_VALUE, RT_COST_PER_LOT,
      show ("SELL" : String) ≠ "BUY" from by decide]
  have habs : 0 < |(((calculateFIFOPnL [Trade.mk "SELL" 1 8 0 0, Trade.mk "BUY" 1 10 0 0]
      1).matchList.filter (fun m => m.pnlDollars < 0)).map Match.netPnLDollars).sum| := by
    rw [hlist]
    norm_num [List.filter, abs_of_neg]
  refine ⟨habs, ?_⟩
  have h := (profit_factor_amended ((calculateFIFOPnL
    [Trade.mk "SELL" 1 8 0 0, Trade.mk "BUY" 1 10 0 0] 1).matchList)).1.1 habs
  rw [h, hlist]
  norm_num [List.filter]

/-! ## Claim C9: Sortino ratio denominator (corrected) -/

/-- JS `calculateSortinoRatio(returns)` from `insightsGenerator.js`.
Return series are exact rationals; the square root lives in `ℝ` (hence
the definition is noncomputable, the one place the code computes an
irrational number).  The downside variance divides by the count of
NEGATIVE returns (`negativeReturns.length`). -/
noncomputable def calculateSortinoRatio (returns : List ℚ) : ExtNum ℝ :=
  if returns.length < 2 then .num 0
  else
    let avgReturn : ℚ := returns.sum / returns.length
    let negativeReturns := returns.filter (fun r => r < 0)
    if negativeReturns.length = 0 then
      (if 0 < avgReturn then .inf else .num 0)
    else
      let downsideVariance : ℚ :=
        ((negativeReturns.map (fun r => r ^ 2)).sum) / negativeReturns.length
      let downsideDev : ℝ := Real.sqrt (downsideVariance : ℝ)
      if downsideDev = 0 then (if 0 < avgReturn then .inf else .num 0)
      else .num ((avgReturn : ℝ) / downsideDev)

/-- Modelled from the spec: the Sortino formula exactly as claim C9
words it, with the downside variance averaged over the count of ALL
returns (`returns.length`).  Defined only to compare against the code's
`calculateSortinoRatio`; everything else is identical. -/
noncomputable def sortinoClaimAllCount (returns : List ℚ) : ExtNum ℝ :=
  if returns.length < 2 then .num 0
  else
    let avgReturn : ℚ := returns.sum / returns.length
    let negativeReturns := returns.filter (fun r => r < 0)
    if negativeReturns.length = 0 then
      (if 0 < avgReturn then .inf else .num 0)
    else
      let downsideVariance : ℚ :=
        ((negativeReturns.map (fun r => r ^ 2)).sum) / returns.length
      let downsideDev : ℝ := Real.sqrt (downsideVariance : ℝ)
      if downsideDev = 0 then (if 0 < avgReturn then .inf else .num 0)
      else .num ((avgReturn : ℝ) / downsideDev)

/-- Counterexample to C9 as stated: on the series
`[-3, -3, 5, 5, 5, 5, 5, 5]` (mean 3, squared negatives summing to 18)
the code divides 18 by the 2 negative returns (deviation 3, ratio 1),
while the claim's all-count denominator divides by 8 (deviation 3/2,
ratio 2). -/
theorem sortino_counterexample :
    calculateSortinoRatio [-3, -3, 5, 5, 5, 5, 5, 5] = ExtNum.num 1 ∧
    sortinoClaimAllCount [-3, -3, 5, 5, 5, 5, 5, 5] = ExtNum.num 2 ∧
    ExtNum.num (1 : ℝ) ≠ ExtNum.num (2 : ℝ) := by
  have hfilter : (([-3, -3, 5, 5, 5, 5, 5, 5] : List ℚ).filter (fun r => r < 0)) =
      [-3, -3] := by
    norm_num [List.filter]
  have hsqrt9 : Real.sqrt (9 : ℝ) = 3 := by
    rw [show (9 : ℝ) = 3 ^ 2 by norm_num]
    exact Real.sqrt_sq (by norm_num)
  have hsqrt4 : Real.sqrt (4 : ℝ) = 2 := by
    rw [show (4 : ℝ) = 2 ^ 2 by norm_num]
    exact Real.sqrt_sq (by norm_num)
  refine ⟨?_, ?_, ?_⟩
  · simp only [calculateSortinoRatio, hfilter]
    norm_num [hsqrt9, hsqrt4]
  · simp only [sortinoClaimAllCount, hfilter]
    norm_num [hsqrt9, hsqrt4]
  · intro h
    rw [ExtNum.num.injEq] at h
    norm_num at h

/-- C9 as amended.  For a series with at least 2 returns of which at
least one is negative, the Sortino ratio is the mean divided by the
square root of (sum of squared negative returns / count of NEGATIVE
returns) — the variance average divides by the negative count, not the
count of all returns; with fewer than 2 data points the result is 0. -/
theorem sortino_denominator_amended (returns : List ℚ)
    (h2 : 2 ≤ returns.length)
    (hneg : (returns.filter (fun r => r < 0)).length ≠ 0) :
    (calculateSortinoRatio returns =
      ExtNum.num (((returns.sum / returns.length : ℚ) : ℝ) /
        Real.sqrt (((((returns.filter (fun r => r < 0)).map (fun r => r ^ 2)).sum /
          ((returns.filter (fun r => r < 0)).length : ℚ) : ℚ)) : ℝ))) ∧
    ∀ (rs : List ℚ), rs.length < 2 → calculateSortinoRatio rs = ExtNum.num 0 := by
  constructor
  · have hlt : ¬returns.length < 2 := by omega
    have hvarpos : 0 < (((returns.filter (fun r => r < 0)).map (fun r => r ^ 2)).sum /
        ((returns.filter (fun r => r < 0)).length : ℚ)) := by
      apply div_pos
      · apply List.sum_pos
        · intro x hx
          obtain ⟨r, hr, rfl⟩ := List.mem_map.mp hx
          have : r < 0 := by
            have := List.of_mem_filter hr
            exact of_decide_eq_true this
          have hr0 : r ≠ 0 := ne_of_lt this
          exact pow_two_pos_of_ne_zero hr0
        · intro hnil
          apply hneg
          rw [List.map_eq_nil_iff] at hnil
          rw [hnil]
          rfl
      · have : 0 < (returns.filter (fun r => r < 0)).length := Nat.pos_of_ne_zero hneg
        exact_mod_cast this
    have hdev : Real.sqrt ((((returns.filter (fun r => r < 0)).map (fun r => r ^ 2)).sum /
        ((returns.filter (fun r => r < 0)).length : ℚ) : ℚ) : ℝ) ≠ 0 := by
      apply ne_of_gt
      rw [Real.sqrt_pos]
      exact_mod_cast hvarpos
    simp only [calculateSortinoRatio, hlt, if_false, hneg, hdev]
  · intro rs hrs
    simp [calculateSortinoRatio, hrs]

/-- Witness for C9 as amended at the series `[-1, 3]`: one negative
return of `-1`, deviation `1`, mean `1`, Sortino ratio `1`. -/
theorem sortino_denominator_amended_witness :
    2 ≤ ([-1, 3] : List ℚ).length ∧
    (([-1, 3] : List ℚ).filter (fun r => r < 0)).length ≠ 0 ∧
    calculateSortinoRatio [-1, 3] = ExtNum.num 1 := by
  have hfilter : (([-1, 3] : List ℚ).filter (fun r => r < 0)) = [-1] := by
    norm_num [List.filter]
  have hneg : (([-1, 3] : List ℚ).filter (fun r => r < 0)).length ≠ 0 := by
    rw [hfilter]; norm_num
  refine ⟨by norm_num, hneg, ?_⟩
  have h := (sortino_denominator_amended [-1, 3] (by norm_num) hneg).1
  rw [h, hfilter]
  norm_num

/-! ## Claim C10: the engine never mutates the caller's trade objects

To talk about mutation at all, this section re-embeds `calculateFIFOPnL`
at the heap level: a store of objects addressed by index.  The caller's
trades are pre-existing store entries, passed by index; queue entries
are the fresh objects the JS spread `{...trade, quantity: remainingQty,
originalQty, entryOrder}` allocates (appended to the store); the only
field write in the function body, `oldestEntry.quantity -= matchQty`,
becomes a store write at the queue entry's index.  Match records and the
running totals are JS locals built from field-value copies (`{...trade}`
and number arithmetic); they perform no heap write and are not tracked
here. -/

/-- Field values of one heap object. -/
structure HObj where
  side : String := ""
  quantity : ℚ := 0
  price : ℚ := 0
  timestamp : ℤ := 0
  date : ℤ := 0
  originalQty : ℚ := 0
  entryOrder : ℕ := 0
  deriving DecidableEq, Repr, Inhabited

/-- Heap-level engine state: the object store, the two queues of object
indices and the entry counter. -/
structure HeapState where
  store : List HObj
  longQueue : List ℕ
  shortQueue : List ℕ
  entryIndex : ℕ
  deriving DecidableEq, Repr

/-- The heap-level matching loop: reads the oldest queue entry, writes
its decremented quantity back, and dequeues it when it reaches zero. -/
def heapLoop : List HObj → ℚ → List ℕ → List HObj × List ℕ × ℚ
  | st, remaining, [] => (st, [], remaining)
  | st, remaining, i :: rest =>
    if 0 < remaining then
      let e := st.getD i default
      let matchQty := min remaining e.quantity
      let st1 := st.set i { e with quantity := e.quantity - matchQty }
      if (st1.getD i default).quantity = 0 then
        let r := heapLoop st1 (remaining - matchQty) rest
        (r.1, r.2.1, r.2.2)
      else (st1, i :: rest, remaining - matchQty)
    else (st, i :: rest, remaining)

/-- Heap-level processing of one trade, given by its store index. -/
def processHeapTrade (st : HeapState) (tIdx : ℕ) : HeapState :=
  let t := st.store.getD tIdx default
  let idx := st.entryIndex + 1
  if t.side = "BUY" then
    let r := heapLoop st.store t.quantity st.shortQueue
    let rem := r.2.2
    let newObj : HObj :=
      { t with quantity := rem, originalQty := t.quantity, entryOrder := idx }
    if 0 < rem then
      { store := r.1 ++ [newObj]
        longQueue := st.longQueue ++ [r.1.length]
        shortQueue := r.2.1
        entryIndex := idx }
    else
      { store := r.1, longQueue := st.longQueue, shortQueue := r.2.1,
        entryIndex := idx }
  else
    let r := heapLoop st.store t.quantity st.longQueue
    let rem := r.2.2
    let newObj : HObj :=
      { t with quantity := rem, originalQty := t.quantity, entryOrder := idx }
    if 0 < rem then
      { store := r.1 ++ [newObj]
        shortQueue := st.shortQueue ++ [r.1.length]
        longQueue := r.2.1
        entryIndex := idx }
    else
      { store := r.1, shortQueue := st.shortQueue, longQueue := r.2.1,
        entryIndex := idx }

/-- `calculateFIFOPnL` at the heap level: fold over the caller's trade
indices starting from the caller's store. -/
def runHeap (store : List HObj) (idxs : List ℕ) : HeapState :=
  idxs.foldl processHeapTrade ⟨store, [], [], 0⟩

/-- Setting an index at or beyond `n` leaves the first `n` elements
untouched. -/
theorem take_set_of_le {α : Type} (l : List α) (i : ℕ) (a : α) (n : ℕ)
    (h : n ≤ i) : (l.set i a).take n = l.take n := by
  apply List.ext_getElem
  · simp
  · intro j h1 h2
    simp only [List.getElem_take]
    have hij : i ≠ j := by
      have := h1
      simp only [List.length_take] at this
      omega
    exact List.getElem_set_ne hij _

/-- The heap invariant: the store only ever grows, its original prefix
is untouched, and every queue index points at an engine-allocated object
(at or beyond the original length). -/
def HeapInv (s0 : List HObj) (st : HeapState) : Prop :=
  s0.length ≤ st.store.length ∧ st.store.take s0.length = s0 ∧
  (∀ i ∈ st.longQueue, s0.length ≤ i) ∧ (∀ i ∈ st.shortQueue, s0.length ≤ i)

theorem heapLoop_inv (s0 : List HObj) :
    ∀ (q : List ℕ) (st : List HObj) (rem : ℚ),
      s0.length ≤ st.length → st.take s0.length = s0 →
      (∀ i ∈ q, s0.length ≤ i) →
      s0.length ≤ (heapLoop st rem q).1.length ∧
      (heapLoop st rem q).1.take s0.length = s0 ∧
      (∀ i ∈ (heapLoop st rem q).2.1, s0.length ≤ i) := by
  intro q
  induction q with
  | nil => intro st rem h1 h2 _; exact ⟨h1, h2, by simp [heapLoop]⟩
  | cons i rest ih =>
    intro st rem h1 h2 hq
    by_cases h0 : 0 < rem
    · have hi : s0.length ≤ i := hq i (List.mem_cons_self _ _)
      have hlen1 : ∀ (a : HObj), s0.length ≤ (st.set i a).length := by
        intro a; simpa using h1
      have htake1 : ∀ (a : HObj), (st.set i a).take s0.length = s0 := fun a =>
        (take_set_of_le st i a s0.length hi).trans h2
      by_cases hc : ((st.set i
          { st.getD i default with
            quantity := (st.getD i default).quantity -
              min rem (st.getD i default).quantity }).getD i default).quantity = 0
      · have hrec := ih (st.set i
            { st.getD i default with
              quantity := (st.getD i default).quantity -
                min rem (st.getD i default).quantity })
          (rem - min rem (st.getD i default).quantity)
          (hlen1 _) (htake1 _) (fun j hj => hq j (List.mem_cons_of_mem _ hj))
        simp only [heapLoop, h0, hc, if_true]
        exact hrec
      · simp only [heapLoop, h0, hc, if_true, if_false]
        exact ⟨hlen1 _, htake1 _, hq⟩
    · simp only [heapLoop, h0, if_false]
      exact ⟨h1, h2, hq⟩

theorem processHeapTrade_inv (s0 : List HObj) (st : HeapState) (tIdx : ℕ)
    (h : HeapInv s0 st) : HeapInv s0 (processHeapTrade st tIdx) := by
  obtain ⟨h1, h2, hl, hs⟩ := h
  by_cases hside : (st.store.getD tIdx default).side = "BUY"
  · obtain ⟨g1, g2, g3⟩ := heapLoop_inv s0 st.shortQueue st.store
      (st.store.getD tIdx default).quantity h1 h2 hs
    by_cases hr : 0 < (heapLoop st.store (st.store.getD tIdx default).quantity
        st.shortQueue).2.2
    · have hstep : processHeapTrade st tIdx =
          { store := (heapLoop st.store (st.store.getD tIdx default).quantity
              st.shortQueue).1 ++
              [{ st.store.getD tIdx default with
                  quantity := (heapLoop st.store
                    (st.store.getD tIdx default).quantity st.shortQueue).2.2,
                  originalQty := (st.store.getD tIdx default).quantity,
                  entryOrder := st.entryIndex + 1 }]
            longQueue := st.longQueue ++
              [(heapLoop st.store (st.store.getD tIdx default).quantity
                st.shortQueue).1.length]
            shortQueue := (heapLoop st.store
              (st.store.getD tIdx default).quantity st.shortQueue).2.1
            entryIndex := st.entryIndex + 1 } := by
        simp only [processHeapTrade, hside, hr, if_true]
      rw [hstep]
      refine ⟨?_, ?_, ?_, ?_⟩
      · simp only [List.length_append, List.length_cons, List.length_nil]
        omega
      · exact (List.take_append_of_le_length g1).trans g2
      · intro i hi
        rcases List.mem_append.mp hi with hi | hi
        · exact hl i hi
        · simp only [List.mem_singleton] at hi
          omega
      · exact g3
    · have hstep : processHeapTrade st tIdx =
          { store := (heapLoop st.store (st.store.getD tIdx default).quantity
              st.shortQueue).1
            longQueue := st.longQueue
            shortQueue := (heapLoop st.store
              (st.store.getD tIdx default).quantity st.shortQueue).2.1
            entryIndex := st.entryIndex + 1 } := by
        simp only [processHeapTrade, hside, hr, if_true, if_false]
      rw [hstep]
      exact ⟨g1, g2, hl, g3⟩
  · obtain ⟨g1, g2, g3⟩ := heapLoop_inv s0 st.longQueue st.store
      (st.store.getD tIdx default).quantity h1 h2 hl
    by_cases hr : 0 < (heapLoop st.store (st.store.getD tIdx default).quantity
        st.longQueue).2.2
    · have hstep : processHeapTrade st tIdx =
          { store := (heapLoop st.store (st.store.getD tIdx default).quantity
              st.longQueue).1 ++
              [{ st.store.getD tIdx default with
                  quantity := (heapLoop st.store
                    (st.store.getD tIdx default).quantity st.longQueue).2.2,
                  originalQty := (st.store.getD tIdx default).quantity,
                  entryOrder := st.entryIndex + 1 }]
            shortQueue := st.shortQueue ++
              [(heapLoop st.store (st.store.getD tIdx default).quantity
                st.longQueue).1.length]
            longQueue := (heapLoop st.store
              (st.store.getD tIdx default).quantity st.longQueue).2.1
            entryIndex := st.entryIndex + 1 } := by
        simp only [processHeapTrade, hside, hr, if_true, if_false]
      rw [hstep]
      refine ⟨?_, ?_, ?_, ?_⟩
      · simp only [List.length_append, List.length_cons, List.length_nil]
        omega
      · exact (List.take_append_of_le_length g1).trans g2
      · exact g3
      · intro i hi
        rcases List.mem_append.mp hi with hi | hi
        · exact hs i hi
        · simp only [List.mem_singleton] at hi
          omega
    · have hstep : processHeapTrade st tIdx =
          { store := (heapLoop st.store (st.store.getD tIdx default).quantity
              st.longQueue).1
            shortQueue := st.shortQueue
            longQueue := (heapLoop st.store
              (st.store.getD tIdx default).quantity st.longQueue).2.1
            entryIndex := st.entryIndex + 1 } := by
        simp only [processHeapTrade, hside, hr, if_true, if_false]
      rw [hstep]
      exact ⟨g1, g2, g3, hs⟩

/-- C10.  The heap-level engine never mutates any pre-existing object:
for every caller store and every list of trade indices, the store after
the run still begins with the original store unchanged (in particular
every input trade object keeps its side, quantity and price), and any
index into the original store reads the same object as before.  All
writes land in the queue entries the engine allocates itself, which are
shallow copies. -/
theorem fifo_no_trade_mutation (store : List HObj) (idxs : List ℕ) :
    (runHeap store idxs).store.take store.length = store ∧
    store.length ≤ (runHeap store idxs).store.length ∧
    (∀ i, i < store.length →
      (runHeap store idxs).store.getD i default = store.getD i default) := by
  have hinv : HeapInv store (runHeap store idxs) := by
    rw [runHeap]
    generalize hst : (⟨store, [], [], 0⟩ : HeapState) = st
    have h : HeapInv store st := by
      subst hst
      exact ⟨le_refl _, by simp, by simp, by simp⟩
    clear hst
    induction idxs generalizing st with
    | nil => simpa using h
    | cons t rest ih =>
      simpa using ih (processHeapTrade st t) (processHeapTrade_inv store st t h)
  obtain ⟨h1, h2, _, _⟩ := hinv
  refine ⟨h2, h1, ?_⟩
  intro i hi
  have := congrArg (fun l => l.getD i default) h2
  simpa [List.getD_eq_getElem?_getD, List.getElem?_take, hi] using this

/-- Witness for C10: running the heap engine on a BUY and a SELL leaves
the caller's first trade object unchanged in the store. -/
theorem fifo_no_trade_mutation_witness :
    (0 : ℕ) < ([⟨"BUY", 1, 10, 0, 0, 0, 0⟩, ⟨"SELL", 1, 12, 0, 0, 0, 0⟩] :
      List HObj).length ∧
    (runHeap [⟨"BUY", 1, 10, 0, 0, 0, 0⟩, ⟨"SELL", 1, 12, 0, 0, 0, 0⟩]
        [0, 1]).store.getD 0 default =
      ([⟨"BUY", 1, 10, 0, 0, 0, 0⟩, ⟨"SELL", 1, 12, 0, 0, 0, 0⟩] :
        List HObj).getD 0 default :=
  ⟨by norm_num,
    (fifo_no_trade_mutation
      [⟨"BUY", 1, 10, 0, 0, 0, 0⟩, ⟨"SELL", 1, 12, 0, 0, 0, 0⟩] [0, 1]).2.2 0
      (by norm_num)⟩

/-! ## String-level groundwork for the trade parser (`tradeParser.js`)

All parsing is modelled over `List Char`.  JavaScript regular
expressions are embedded as explicit character scanners; each scanner's
doc comment names the regex it implements.  The regexes in this code are
simple enough that greedy matching is deterministic (every repeated
character class is followed by a character outside that class), so the
scanners below consume maximal class runs where the regex is greedy. -/

/-- The JavaScript whitespace class `\s` (also the set `String.trim`
strips): tab, LF, VT, FF, CR, space, NBSP, Ogham space, the Unicode
en/em spaces, LS, PS, NNBSP, MMSP, ideographic space and the BOM. -/
def isJsSpace (c : Char) : Bool :=
  let n := c.toNat
  n = 9 || n = 10 || n = 11 || n = 12 || n = 13 || n = 32 || n = 160 ||
  n = 5760 || (8192 ≤ n && n ≤ 8202) || n = 8232 || n = 8233 || n = 8239 ||
  n = 8287 || n = 12288 || n = 65279

/-- The JavaScript word class `\w`: ASCII letters, digits, underscore. -/
def isWordChar (c : Char) : Bool :=
  ('a' ≤ c && c ≤ 'z') || ('A' ≤ c && c ≤ 'Z') || c.isDigit || c = '_'

/-- ASCII letter (`[A-Z]` under the `i` flag). -/
def isAsciiLetter (c : Char) : Bool :=
  ('a' ≤ c && c ≤ 'z') || ('A' ≤ c && c ≤ 'Z')

/-- JS `String.prototype.trim`. -/
def jsTrim (cs : List Char) : List Char :=
  ((cs.dropWhile isJsSpace).reverse.dropWhile isJsSpace).reverse

/-- Case-insensitive match of a (lowercase) keyword at the head,
returning the remainder. -/
def matchCIList : List Char → List Char → Option (List Char)
  | [], cs => some cs
  | _ :: _, [] => none
  | k :: ks, c :: cs => if c.toLower = k then matchCIList ks cs else none

/-- Exact match of a keyword at the head, returning the remainder. -/
def matchExactList : List Char → List Char → Option (List Char)
  | [], cs => some cs
  | _ :: _, [] => none
  | k :: ks, c :: cs => if c = k then matchExactList ks cs else none

/-! ### The ten rewrite passes of `normalizeStructureName`

Each pass is one JS `String.replace(regex-with-g, replacement)`:
leftmost non-overlapping matches over the input, each replaced, scanning
resuming after the match.  `rscan m` runs one pass; a matcher `m`
returns, for a match at the head, the replacement together with the
number of matched characters beyond the first. -/

/-- One global-replace pass, on fuel: at each position try the matcher;
on a match emit the replacement and resume after the matched span,
otherwise keep the character.  Every match consumes at least one
character, so fuel equal to the list length is always enough; the
structural recursion on the fuel keeps the definition kernel-reducible. -/
def rscanF (m : List Char → Option (List Char × ℕ)) :
    ℕ → List Char → List Char
  | _, [] => []
  | 0, l => l
  | f + 1, c :: cs =>
    match m (c :: cs) with
    | some (r, k) => r ++ rscanF m f (cs.drop k)
    | none => c :: rscanF m f cs

/-- One global-replace pass (JS `String.replace` with the `g` flag). -/
def rscan (m : List Char → Option (List Char × ℕ)) (l : List Char) :
    List Char := rscanF m l.length l

/-- Wrap a remainder-style matcher into the replacement/length form
`rscan` consumes. -/
def toRepl (cs : List Char) (repl : List Char) :
    Option (List Char) → Option (List Char × ℕ)
  | some rem => some (repl, cs.length - rem.length - 1)
  | none => none

/-- Core of `/D[-\s]?[Ff]ly/gi`: `d`, optionally one dash or space,
then `fly`, all case-insensitive. -/
def dFlyCore : List Char → Option (List Char)
  | c :: rest =>
    if c.toLower = 'd' then
      match rest with
      | s :: rest2 =>
        if s = '-' || isJsSpace s then matchCIList ['f', 'l', 'y'] rest2
        else matchCIList ['f', 'l', 'y'] rest
      | [] => none
    else none
  | [] => none

/-- Pass 1: `/D[-\s]?[Ff]ly/gi → "D-Fly"`. -/
def mDFly (cs : List Char) : Option (List Char × ℕ) :=
  toRepl cs "D-Fly".toList (dFlyCore cs)

/-- Pass 2: `/3\s*D[-\s]?[Ff]ly/gi → "3 D-Fly"`. -/
def m3DFly (cs : List Char) : Option (List Char × ℕ) :=
  toRepl cs "3 D-Fly".toList
    (match cs with
     | '3' :: rest => dFlyCore (rest.dropWhile isJsSpace)
     | _ => none)

/-- Pass 3: `/3\s+[Ff]ly(?!\s*Condor)(?!\s*D)/gi → "3 Fly"`; the two
negative lookaheads block the rewrite when `fly` is followed (over
optional whitespace) by `condor` or by a `d`, case-insensitively. -/
def m3Fly (cs : List Char) : Option (List Char × ℕ) :=
  toRepl cs "3 Fly".toList
    (match cs with
     | '3' :: rest =>
       if (rest.takeWhile isJsSpace).isEmpty then none
       else
         match matchCIList ['f', 'l', 'y'] (rest.dropWhile isJsSpace) with
         | some rem =>
           let after := rem.dropWhile isJsSpace
           if (matchCIList ['c', 'o', 'n', 'd', 'o', 'r'] after).isSome then none
           else
             match after with
             | a :: _ => if a.toLower = 'd' then none else some rem
             | [] => some rem
         | none => none
     | _ => none)

/-- Pass 4: `/[Ff]ly\s*[Cc]ondor/gi → "Fly Condor"`. -/
def mFlyCondor (cs : List Char) : Option (List Char × ℕ) :=
  toRepl cs "Fly Condor".toList
    (match matchCIList ['f', 'l', 'y'] cs with
     | some rem => matchCIList ['c', 'o', 'n', 'd', 'o', 'r']
         (rem.dropWhile isJsSpace)
     | none => none)

/-- Pass 5: `/3mo\s*[Bb]utterfly/gi → "3mo Butterfly"`. -/
def m3moButterfly (cs : List Char) : Option (List Char × ℕ) :=
  toRepl cs "3mo Butterfly".toList
    (match matchCIList ['3', 'm', 'o'] cs with
     | some rem => matchCIList ['b', 'u', 't', 't', 'e', 'r', 'f', 'l', 'y']
         (rem.dropWhile isJsSpace)
     | none => none)

/-- Pass 6: `/3mo\s*[Cc]ondor/gi → "3mo Condor"`. -/
def m3moCondor (cs : List Char) : Option (List Char × ℕ) :=
  toRepl cs "3mo Condor".toList
    (match matchCIList ['3', 'm', 'o'] cs with
     | some rem => matchCIList ['c', 'o', 'n', 'd', 'o', 'r']
         (rem.dropWhile isJsSpace)
     | none => none)

/-- Pass 7: `/[Cc]alendar/g → "Calendar"` (no `i` flag: the tail is
matched with exact case). -/
def mCalendar (cs : List Char) : Option (List Char × ℕ) :=
  toRepl cs "Calendar".toList
    (match cs with
     | c :: rest =>
       if c = 'C' || c = 'c' then
         matchExactList ['a', 'l', 'e', 'n', 'd', 'a', 'r'] rest
       else none
     | [] => none)

/-- Pass 8: `/[Bb]utterfly/g → "Butterfly"` (exact-case tail). -/
def mButterfly (cs : List Char) : Option (List Char × ℕ) :=
  toRepl cs "Butterfly".toList
    (match cs with
     | c :: rest =>
       if c = 'B' || c = 'b' then
         matchExactList ['u', 't', 't', 'e', 'r', 'f', 'l', 'y'] rest
       else none
     | [] => none)

/-- Pass 9: `/[Cc]ondor/g → "Condor"` (exact-case tail). -/
def mCondor (cs : List Char) : Option (List Char × ℕ) :=
  toRepl cs "Condor".toList
    (match cs with
     | c :: rest =>
       if c = 'C' || c = 'c' then
         matchExactList ['o', 'n', 'd', 'o', 'r'] rest
       else none
     | [] => none)

/-- A dash as in `[–—-]` (en dash, em dash, hyphen). -/
def isAnyDash (c : Char) : Bool := c = '–' || c = '—' || c = '-'

/-- Pass 10: `/(\w{3}\d{2})\s*[–—-]\s*(\w{3}\d{2})/g → "$1-$2"`:
normalize the dash between two five-character tenor codes. -/
def mTenorDash (cs : List Char) : Option (List Char × ℕ) :=
  match cs with
  | w1 :: w2 :: w3 :: d1 :: d2 :: rest =>
    if isWordChar w1 && isWordChar w2 && isWordChar w3 &&
        d1.isDigit && d2.isDigit then
      match (rest.dropWhile isJsSpace) with
      | dash :: rest2 =>
        if isAnyDash dash then
          match (rest2.dropWhile isJsSpace) with
          | v1 :: v2 :: v3 :: e1 :: e2 :: rem =>
            if isWordChar v1 && isWordChar v2 && isWordChar v3 &&
                e1.isDigit && e2.isDigit then
              some ([w1, w2, w3, d1, d2, '-', v1, v2, v3, e1, e2],
                cs.length - rem.length - 1)
            else none
          | _ => none
        else none
      | [] => none
    else none
  | _ => none

/-- JS `normalizeStructureName(structure)` from `tradeParser.js` (the
full ten-pass version): trim, then the ten global-replace passes in
source order. -/
def normalizeStructureName (s : String) : String :=
  if s = "" then ""
  else
    let n := jsTrim s.toList
    let n := rscan mDFly n
    let n := rscan m3DFly n
    let n := rscan m3Fly n
    let n := rscan mFlyCondor n
    let n := rscan m3moButterfly n
    let n := rscan m3moCondor n
    let n := rscan mCalendar n
    let n := rscan mButterfly n
    let n := rscan mCondor n
    let n := rscan mTenorDash n
    String.mk n

/-! ## Field detection (`detectFieldType` in the parser)

Each regex used by `detectFieldType` is embedded as a boolean test over
`List Char`.  Wherever a regex quantifier is followed by a character
outside the quantified class, greedy matching with backtracking is
forced to the maximal run, which is what the scanners implement; the
genuinely branching quantifiers (`\d{1,2}` and the alternations) are
embedded as bounded disjunctions over the possible lengths, which is
exactly the acceptance semantics of `RegExp.test`. -/

/-- `.test` of an unanchored regex: try the at-position matcher at every
suffix (including the empty one, as a regex engine does). -/
def searchTest (p : List Char → Bool) : List Char → Bool
  | [] => p []
  | c :: cs => p (c :: cs) || searchTest p cs

/-- `p` is a prefix of `s` (JS `String.prototype.startsWith`). -/
def startsWithL : List Char → List Char → Bool
  | [], _ => true
  | _ :: _, [] => false
  | a :: as, b :: bs => a = b && startsWithL as bs

/-- JS `String.prototype.trim` at the `String` level. -/
def trimS (s : String) : String := String.mk (jsTrim s.toList)

/-- First-occurrence `replace('*', '')`. -/
def removeFirstStar : List Char → List Char
  | [] => []
  | c :: cs => if c = '*' then cs else c :: removeFirstStar cs

/-- Value of a list of decimal digits. -/
def natOfDigits (ds : List Char) : ℕ :=
  ds.foldl (fun a c => a * 10 + (c.toNat - 48)) 0

def isHexDigit (c : Char) : Bool :=
  c.isDigit || ('a' ≤ c.toLower && c.toLower ≤ 'f')

def hexDigitVal (c : Char) : ℕ :=
  if c.isDigit then c.toNat - 48 else c.toLower.toNat - 87

def natOfHexDigits (ds : List Char) : ℕ :=
  ds.foldl (fun a c => a * 16 + hexDigitVal c) 0

/-- JS `parseInt` with the default radix: skip leading whitespace, an
optional sign, then either a `0x`/`0X` hexadecimal literal or a run of
decimal digits; `none` models `NaN` (both call sites in the source
apply `|| 0` to the result). -/
def jsParseInt (s : String) : Option ℤ :=
  let cs := s.toList.dropWhile isJsSpace
  let neg := cs.headD ' ' = '-'
  let cs1 := if cs.headD ' ' = '-' ∨ cs.headD ' ' = '+' then cs.tail else cs
  if cs1.headD ' ' = '0' ∧ (cs1.tail.headD ' ' = 'x' ∨ cs1.tail.headD ' ' = 'X') then
    let ds := cs1.tail.tail.takeWhile isHexDigit
    if ds = [] then none
    else some (if neg then -(natOfHexDigits ds : ℤ) else (natOfHexDigits ds : ℤ))
  else
    let ds := cs1.takeWhile Char.isDigit
    if ds = [] then none
    else some (if neg then -(natOfDigits ds : ℤ) else (natOfDigits ds : ℤ))

/-- JS `parseFloat`: skip leading whitespace, optional sign, decimal
digits with optional fraction, optional exponent; `none` models `NaN`.
The host computes in binary floating point and can also produce
`Infinity` from the literal `"Infinity"`; under the development-wide
exact-rational abstraction of JS numbers those cases are outside the
model (`none`).  Integer inputs are valued through a `ℕ`-cast, which is
the same rational as the general formula with an empty fraction and
zero exponent, and keeps the definition kernel-computable. -/
def jsParseFloat (s : String) : Option ℚ :=
  let cs := s.toList.dropWhile isJsSpace
  let neg := cs.headD ' ' = '-'
  let cs1 := if cs.headD ' ' = '-' ∨ cs.headD ' ' = '+' then cs.tail else cs
  let intDs := cs1.takeWhile Char.isDigit
  let r1 := cs1.dropWhile Char.isDigit
  let fracDs := if r1.headD ' ' = '.' then r1.tail.takeWhile Char.isDigit else []
  let r2 := if r1.headD ' ' = '.' then r1.tail.dropWhile Char.isDigit else r1
  if intDs = [] ∧ fracDs = [] then none
  else
    let e : ℤ :=
      if r2.headD ' ' = 'e' ∨ r2.headD ' ' = 'E' then
        let es := r2.tail
        let eneg := es.headD ' ' = '-'
        let es1 := if es.headD ' ' = '-' ∨ es.headD ' ' = '+' then es.tail else es
        let eDs := es1.takeWhile Char.isDigit
        if eDs = [] then 0
        else if eneg then -(natOfDigits eDs : ℤ) else (natOfDigits eDs : ℤ)
      else 0
    let mag : ℚ :=
      if fracDs = [] ∧ e = 0 then (natOfDigits intDs : ℚ)
      else ((natOfDigits intDs : ℚ) + (natOfDigits fracDs : ℚ) / 10 ^ fracDs.length)
        * 10 ^ e
    some (if neg then -mag else mag)

/-- `/^-?\d+\.?\d*$/` — the price/quantity shape. -/
def numericTest (cs : List Char) : Bool :=
  let cs1 := if cs.headD ' ' = '-' then cs.tail else cs
  let ds := cs1.takeWhile Char.isDigit
  let r := cs1.dropWhile Char.isDigit
  !ds.isEmpty && (r.isEmpty || (r.headD ' ' = '.' && r.tail.all Char.isDigit))

/-- Whole string equals the keyword, case-insensitively. -/
def lowerEq (cs : List Char) (w : String) : Bool :=
  cs.map Char.toLower = w.toList

/-- `BUY_PATTERNS = /^(B|BUY|BOUGHT|LONG)$/i`. -/
def sideBuyTest (cs : List Char) : Bool :=
  lowerEq cs "b" || lowerEq cs "buy" || lowerEq cs "bought" || lowerEq cs "long"

/-- `SELL_PATTERNS = /^(S|SELL|SOLD|SHORT)$/i`. -/
def sideSellTest (cs : List Char) : Bool :=
  lowerEq cs "s" || lowerEq cs "sell" || lowerEq cs "sold" || lowerEq cs "short"

/-- `[A-Z]*\*?$` under the `i` flag: letters with at most one final
star. -/
def lettersOptStar : List Char → Bool
  | [] => true
  | ['*'] => true
  | c :: cs => isAsciiLetter c && lettersOptStar cs

/-- An optional `[_\-]` separator (deterministic: neither character is
a letter, so the regex has no other viable path). -/
def dropOptSep (cs : List Char) : List Char :=
  if cs.headD ' ' = '_' ∨ cs.headD ' ' = '-' then cs.tail else cs

/-- Alternatives `ICE[_\-]?[A-Z]*` and `CME[_\-]?[A-Z]*` of the
exchange pattern (with the shared `\*?$`). -/
def kwSepLetters (kw : String) (cs : List Char) : Bool :=
  match matchCIList kw.toList cs with
  | some r => lettersOptStar (dropOptSep r)
  | none => false

/-- A literal alternative of the exchange pattern with the `\*?$`. -/
def litOptStar (kw : String) (cs : List Char) : Bool :=
  lowerEq cs kw || lowerEq cs (kw ++ "*")

/-- Alternative `[A-Z]{2,6}[_\-][A-Z]+` of the exchange pattern: the
counted letter run is forced maximal because the following class
`[_\-]` holds no letter. -/
def genericExchange (cs : List Char) : Bool :=
  let ls := cs.takeWhile isAsciiLetter
  let r := cs.dropWhile isAsciiLetter
  2 ≤ ls.length && ls.length ≤ 6 &&
    (r.headD ' ' = '_' || r.headD ' ' = '-') &&
    isAsciiLetter (r.tail.headD ' ') && lettersOptStar r.tail

/-- `EXCHANGE_PATTERN` (anchored, `i` flag). -/
def exchangeTest (cs : List Char) : Bool :=
  kwSepLetters "ice" cs || kwSepLetters "cme" cs || litOptStar "nymex" cs ||
  litOptStar "comex" cs || litOptStar "ase" cs || litOptStar "eurex" cs ||
  genericExchange cs

/-- `\s+` followed by a non-space component: the run is forced
maximal. -/
def spaces1 (cs : List Char) : Option (List Char) :=
  if isJsSpace (cs.headD 'x') then some (cs.dropWhile isJsSpace) else none

/-- `\w+\d{2}` whose continuation starts with a non-word character (a
space or a dash in every use below): the word run is forced to be
consumed whole, so the regex requires the full run to have length at
least 3 and end in two digits. -/
def wordRunTail2 (cs : List Char) : Option (List Char) :=
  let run := cs.takeWhile isWordChar
  if 3 ≤ run.length ∧ (run.getD (run.length - 2) ' ').isDigit ∧
      (run.getD (run.length - 1) ' ').isDigit then
    some (cs.dropWhile isWordChar)
  else none

/-- `D-?Fly` / `D-?[Ff]ly` under the `i` flag. -/
def dOptDashFly (cs : List Char) : Option (List Char) :=
  match cs with
  | c :: r =>
    if c.toLower = 'd' then
      matchCIList ['f', 'l', 'y'] (if r.headD ' ' = '-' then r.tail else r)
    else none
  | [] => none

/-- `\w+\d{2}` with no forcing continuation: some prefix of the word
run of length at least 3 ends in two digits. -/
def hasTail2Run (run : List Char) : Bool :=
  (List.range (run.length + 1)).any fun j =>
    3 ≤ j && (run.getD (j - 2) ' ').isDigit && (run.getD (j - 1) ' ').isDigit

/-- Body of the lookahead `(?!\s*[-–]\w+\d{2})` of the outright
pattern. -/
def lookTenor (cs : List Char) : Bool :=
  let r := cs.dropWhile isJsSpace
  (r.headD ' ' = '-' || r.headD ' ' = '–') &&
    hasTail2Run (r.tail.takeWhile isWordChar)

/-- `/SO3\s+\w+\d{2}[-–]\w+\d{2}\s+Calendar/i` at a position. -/
def p1At (cs : List Char) : Bool :=
  (matchCIList ['s', 'o', '3'] cs |>.bind spaces1 |>.bind wordRunTail2 |>.bind
    (fun r => if r.headD ' ' = '-' ∨ r.headD ' ' = '–' then some r.tail else none)
    |>.bind wordRunTail2 |>.bind spaces1
    |>.bind (matchCIList "calendar".toList)).isSome

/-- `/SO3\s+\w+\d{2}\s+3mo\s+Butterfly/i` at a position. -/
def p2At (cs : List Char) : Bool :=
  (matchCIList ['s', 'o', '3'] cs |>.bind spaces1 |>.bind wordRunTail2
    |>.bind spaces1 |>.bind (matchCIList "3mo".toList) |>.bind spaces1
    |>.bind (matchCIList "butterfly".toList)).isSome

/-- `/SO3\s+\w+\d{2}\s+3mo\s+Condor/i` at a position. -/
def p3At (cs : List Char) : Bool :=
  (matchCIList ['s', 'o', '3'] cs |>.bind spaces1 |>.bind wordRunTail2
    |>.bind spaces1 |>.bind (matchCIList "3mo".toList) |>.bind spaces1
    |>.bind (matchCIList "condor".toList)).isSome

/-- `/SON\s+\w+\d{2}\s+Fly\s+Condor/i` at a position. -/
def p4At (cs : List Char) : Bool :=
  (matchCIList ['s', 'o', 'n'] cs |>.bind spaces1 |>.bind wordRunTail2
    |>.bind spaces1 |>.bind (matchCIList "fly".toList) |>.bind spaces1
    |>.bind (matchCIList "condor".toList)).isSome

/-- `/SON\s+\w+\d{2}\s+3\s+D-?Fly/i` at a position. -/
def p5At (cs : List Char) : Bool :=
  (matchCIList ['s', 'o', 'n'] cs |>.bind spaces1 |>.bind wordRunTail2
    |>.bind spaces1 |>.bind (matchCIList ['3']) |>.bind spaces1
    |>.bind dOptDashFly).isSome

/-- `/SON\s+\w+\d{2}\s+3\s+Fly/i` at a position. -/
def p6At (cs : List Char) : Bool :=
  (matchCIList ['s', 'o', 'n'] cs |>.bind spaces1 |>.bind wordRunTail2
    |>.bind spaces1 |>.bind (matchCIList ['3']) |>.bind spaces1
    |>.bind (matchCIList "fly".toList)).isSome

/-- `/SON\s+\w+\d{2}\s+D-?[Ff]ly/i` at a position. -/
def p7At (cs : List Char) : Bool :=
  (matchCIList ['s', 'o', 'n'] cs |>.bind spaces1 |>.bind wordRunTail2
    |>.bind spaces1 |>.bind dOptDashFly).isSome

/-- `/S[OA]3\s+\w+\d{2}(?!\s*[-–]\w+\d{2})/i` at a position: some
prefix of the word run ends in two digits at a point where the negative
lookahead holds. -/
def p8At (cs : List Char) : Bool :=
  match cs with
  | c0 :: c1 :: c2 :: r =>
    c0.toLower = 's' && (c1.toLower = 'o' || c1.toLower = 'a') && c2 = '3' &&
    (match spaces1 r with
     | some r2 =>
       let run := r2.takeWhile isWordChar
       let rest := r2.dropWhile isWordChar
       (List.range (run.length + 1)).any fun j =>
         3 ≤ j && (run.getD (j - 2) ' ').isDigit &&
         (run.getD (j - 1) ' ').isDigit && !(lookTenor (run.drop j ++ rest))
     | none => false)
  | _ => false

/-- `/ER3\s+\w+\d{2}/i` at a position. -/
def p9At (cs : List Char) : Bool :=
  match matchCIList ['e', 'r', '3'] cs with
  | some r =>
    match spaces1 r with
    | some r2 => hasTail2Run (r2.takeWhile isWordChar)
    | none => false
  | none => false

/-- The `STRUCTURE_PATTERNS` loop: every pattern returns the same
field, so the loop is the disjunction of the nine tests. -/
def structTest (cs : List Char) : Bool :=
  searchTest p1At cs || searchTest p2At cs || searchTest p3At cs ||
  searchTest p4At cs || searchTest p5At cs || searchTest p6At cs ||
  searchTest p7At cs || searchTest p8At cs || searchTest p9At cs

/-- `/^\d{1,2}[-\/.]\d{1,2}[-\/.]\d{2,4}$/` — the quick date shape. -/
def dateQuickTest (cs : List Char) : Bool :=
  let r1 := cs.takeWhile Char.isDigit
  let s1 := cs.dropWhile Char.isDigit
  1 ≤ r1.length && r1.length ≤ 2 &&
    (s1.headD ' ' = '-' || s1.headD ' ' = '/' || s1.headD ' ' = '.') &&
    (let r2 := s1.tail.takeWhile Char.isDigit
     let s2 := s1.tail.dropWhile Char.isDigit
     1 ≤ r2.length && r2.length ≤ 2 &&
       (s2.headD ' ' = '-' || s2.headD ' ' = '/' || s2.headD ' ' = '.') &&
       (let r3 := s2.tail
        r3.all Char.isDigit && 2 ≤ r3.length && r3.length ≤ 4))

/-- `(\d{1,2})\s+(\w+),?\s+(\d{4})` (with `allowComma`) or
`(\d{1,2})\s+(\w+)\s+(\d{4})` (without) at a position: the digit run
before `\s+` and the word run before `,?\s+` are forced whole. -/
def dmyTail (allowComma : Bool) (r : List Char) : Bool :=
  let dr := r.takeWhile Char.isDigit
  let r1 := r.dropWhile Char.isDigit
  1 ≤ dr.length && dr.length ≤ 2 &&
    match spaces1 r1 with
    | some r2 =>
      let wr := r2.takeWhile isWordChar
      let r3 := r2.dropWhile isWordChar
      1 ≤ wr.length &&
        (let r4 := if allowComma && r3.headD ' ' = ',' then r3.tail else r3
         match spaces1 r4 with
         | some r5 => 4 ≤ (r5.takeWhile Char.isDigit).length
         | none => false)
    | none => false

/-- `/\w+day,?\s+(\d{1,2})\s+(\w+),?\s+(\d{4})/i` at a position: the
word run must end in `day` (anything after `day` inside the run would
make the following `,?\s+` fail). -/
def d1At (cs : List Char) : Bool :=
  let run := cs.takeWhile isWordChar
  let r := cs.dropWhile isWordChar
  4 ≤ run.length && lowerEq (run.drop (run.length - 3)) "day" &&
    (match spaces1 (if r.headD ' ' = ',' then r.tail else r) with
     | some r2 => dmyTail true r2
     | none => false)

/-- `/(\d{1,2})\s+(\w+)\s+(\d{4})/` at a position. -/
def d2At (cs : List Char) : Bool := dmyTail false cs

/-- `/(\d{4})-(\d{2})-(\d{2})/` at a position (all counts exact, the
trailing pair free of context). -/
def d3At (cs : List Char) : Bool :=
  match cs with
  | a :: b :: c :: d :: s1 :: e :: f :: s2 :: g :: h :: _ =>
    a.isDigit && b.isDigit && c.isDigit && d.isDigit && s1 = '-' &&
    e.isDigit && f.isDigit && s2 = '-' && g.isDigit && h.isDigit
  | _ => false

/-- `/(\d{1,2})[\/\-](\d{1,2})[\/\-](\d{2,4})/` at a position, as a
bounded disjunction over the two counted-run lengths. -/
def d4At (cs : List Char) : Bool :=
  [1, 2].any fun j =>
    (cs.take j).all Char.isDigit && j < cs.length &&
      (cs.getD j ' ' = '/' || cs.getD j ' ' = '-') &&
      (let r := cs.drop (j + 1)
       [1, 2].any fun k =>
         (r.take k).all Char.isDigit && k < r.length &&
           (r.getD k ' ' = '/' || r.getD k ' ' = '-') &&
           (let r2 := r.drop (k + 1)
            (r2.take 2).all Char.isDigit && 2 ≤ r2.length))

/-- The optional `[.:]` / `[.:·]` separator before a digit pair is
deterministic: consume it exactly when present. -/
def skipSepDC (cs : List Char) : List Char :=
  if cs.headD ' ' = '.' || cs.headD ' ' = ':' then cs.tail else cs

/-- One branch of `/^\d{1,2}[.:]?\d{2}[.:]?\d{2}/` with the first run
length fixed. -/
def timeQuickGo (a : ℕ) (cs : List Char) : Bool :=
  a ≤ cs.length && (cs.take a).all Char.isDigit &&
    (let r := skipSepDC (cs.drop a)
     (r.take 2).all Char.isDigit && 2 ≤ r.length &&
       (let r2 := skipSepDC (r.drop 2)
        (r2.take 2).all Char.isDigit && 2 ≤ r2.length))

/-- `/^\d{1,2}[.:]?\d{2}[.:]?\d{2}/` — the quick time shape. -/
def timeQuickTest (cs : List Char) : Bool :=
  timeQuickGo 2 cs || timeQuickGo 1 cs

def sepDCM (c : Char) : Bool := c = '.' || c = ':' || c = '·'

/-- `/(\d{1,2})[.:·](\d{2})[.:·](\d{2})(?:[.:·](\d+))?/` at a position
(the optional trailing group never blocks acceptance). -/
def t1At (cs : List Char) : Bool :=
  [1, 2].any fun a =>
    (cs.take a).all Char.isDigit && a < cs.length && sepDCM (cs.getD a ' ') &&
      (let r := cs.drop (a + 1)
       (r.take 2).all Char.isDigit && 2 < r.length && sepDCM (r.getD 2 ' ') &&
         (let r2 := r.drop 3
          (r2.take 2).all Char.isDigit && 2 ≤ r2.length))

/-- `/(\d{1,2}):(\d{2}):(\d{2})/` at a position. -/
def t2At (cs : List Char) : Bool :=
  [1, 2].any fun a =>
    (cs.take a).all Char.isDigit && a < cs.length && cs.getD a ' ' = ':' &&
      (let r := cs.drop (a + 1)
       (r.take 2).all Char.isDigit && 2 < r.length && r.getD 2 ' ' = ':' &&
         (let r2 := r.drop 3
          (r2.take 2).all Char.isDigit && 2 ≤ r2.length))

/-- `/(\d{1,2}):(\d{2})/` at a position. -/
def t3At (cs : List Char) : Bool :=
  [1, 2].any fun a =>
    (cs.take a).all Char.isDigit && a < cs.length && cs.getD a ' ' = ':' &&
      (let r := cs.drop (a + 1)
       (r.take 2).all Char.isDigit && 2 ≤ r.length)

/-- `/^(SO3|SON|SA3|ER3|Calendar|Butterfly|Condor|Fly|D-?Fly)/i`. -/
def structPartTest (cs : List Char) : Bool :=
  (matchCIList "so3".toList cs).isSome || (matchCIList "son".toList cs).isSome ||
  (matchCIList "sa3".toList cs).isSome || (matchCIList "er3".toList cs).isSome ||
  (matchCIList "calendar".toList cs).isSome ||
  (matchCIList "butterfly".toList cs).isSome ||
  (matchCIList "condor".toList cs).isSome ||
  (matchCIList "fly".toList cs).isSome || (dOptDashFly cs).isSome

/-- The tagged value returned by `detectFieldType` (`{ type, value }`
in the source). -/
inductive Detected where
  | dateF (v : String)
  | timeF (v : String)
  | exchangeF (v : String)
  | structF (v : String)
  | structPartF (v : String)
  | sideF (v : String)
  | quantityF (v : ℚ)
  | priceF (v : ℚ)
  | unknownF (v : String)
deriving DecidableEq, Repr

/-- `detectFieldType(value)`: the branch cascade of the source, in
order.  `Number.isInteger` on the exact rational is `den = 1`; the
date- and time-pattern `for` loops return the same field for every
pattern and are therefore disjunctions. -/
def detectFieldType (s : String) : Detected :=
  let trimmed := trimS s
  let cs := trimmed.toList
  if numericTest cs then
    let num := (jsParseFloat trimmed).getD 0
    if num.den = 1 ∧ 0 < num ∧ num < 1000 then .quantityF num else .priceF num
  else if sideBuyTest cs then .sideF "BUY"
  else if sideSellTest cs then .sideF "SELL"
  else if exchangeTest cs then .exchangeF (String.mk (removeFirstStar cs))
  else if structTest cs then .structF trimmed
  else if dateQuickTest cs then .dateF trimmed
  else if searchTest d1At cs || searchTest d2At cs || searchTest d3At cs ||
      searchTest d4At cs then .dateF trimmed
  else if timeQuickTest cs then .timeF trimmed
  else if searchTest t1At cs || searchTest t2At cs || searchTest t3At cs then
    .timeF trimmed
  else if structPartTest cs then .structPartF trimmed
  else .unknownF trimmed

/-! ## Dates, times and the row parser

A JS `Date` built by `new Date(year, monthIndex, day)` and mutated by
`setHours`/`setMinutes`/`setSeconds` is modelled by its six calendar
components.  The constructor normalizes an out-of-range month index
into the year (floor-division); normalization of an out-of-range *day*
or *time* into neighbouring months or days does not occur for any value
the embedded code produces and is outside the model.  The host fallback
`new Date(string)` at the end of `parseDate` is an implementation-
defined host parse and enters the model as the parameter `fb`
(`none` standing for an invalid date); epoch milliseconds
(`getTime()`), `Math.random` ids and the derived `dateStr` are host
artifacts and are omitted from the parsed-trade record. -/

/-- The calendar components of a JS `Date`. -/
structure JsDate where
  year : ℤ
  monthIndex : ℤ
  day : ℤ
  hours : ℤ
  minutes : ℤ
  seconds : ℤ
deriving DecidableEq, Repr

/-- `new Date(y, m, d)` (midnight; month index normalized into the
year by floor-division). -/
def jsMkDate (y m d : ℤ) : JsDate :=
  ⟨y + m.fdiv 12, m.emod 12, d, 0, 0, 0⟩

def monthNames : List String :=
  ["january", "february", "march", "april", "may", "june", "july",
   "august", "september", "october", "november", "december"]

/-- `/(\d{1,2})\s+(\w+),?\s+(\d{4})/` at a position with the first run
length fixed: returns the day, month-word and year captures. -/
def match1Len (j : ℕ) (cs : List Char) :
    Option (List Char × List Char × List Char) :=
  let ds := cs.take j
  if ds.length = j ∧ ds.all Char.isDigit then
    match spaces1 (cs.drop j) with
    | some r =>
      let wr := r.takeWhile isWordChar
      let r2 := r.dropWhile isWordChar
      if wr ≠ [] then
        match spaces1 (if r2.headD ' ' = ',' then r2.tail else r2) with
        | some r4 =>
          let ys := r4.take 4
          if ys.length = 4 ∧ ys.all Char.isDigit then some (ds, wr, ys)
          else none
        | none => none
      else none
    | none => none
  else none

/-- The same at a position: the greedy `\d{1,2}` tries two digits
before one. -/
def match1At (cs : List Char) : Option (List Char × List Char × List Char) :=
  match match1Len 2 cs with
  | some x => some x
  | none => match1Len 1 cs

/-- `String.prototype.match` of the day/month-word/year pattern: the
captures of the leftmost match. -/
def scanMatch1 : List Char → Option (List Char × List Char × List Char)
  | [] => none
  | c :: cs =>
    match match1At (c :: cs) with
    | some x => some x
    | none => scanMatch1 cs

/-- `/^(\d{4})-(\d{1,2})-(\d{1,2})$/` with its captures as numbers. -/
def isoExtract (cs : List Char) : Option (ℕ × ℕ × ℕ) :=
  let ys := cs.take 4
  if ys.length = 4 ∧ ys.all Char.isDigit ∧ cs.getD 4 ' ' = '-' then
    let r := cs.drop 5
    let ms := r.takeWhile Char.isDigit
    let r2 := r.dropWhile Char.isDigit
    if 1 ≤ ms.length ∧ ms.length ≤ 2 ∧ r2.headD ' ' = '-' then
      let ds := r2.tail
      if ds ≠ [] ∧ ds.all Char.isDigit ∧ ds.length ≤ 2 then
        some (natOfDigits ys, natOfDigits ms, natOfDigits ds)
      else none
    else none
  else none

/-- `/^(\d{1,2})[-\/.](\d{1,2})[-\/.](\d{2,4})$/` with its captures as
numbers (day, month, year). -/
def euroExtract (cs : List Char) : Option (ℕ × ℕ × ℕ) :=
  let ds := cs.takeWhile Char.isDigit
  let r := cs.dropWhile Char.isDigit
  if 1 ≤ ds.length ∧ ds.length ≤ 2 ∧
      (r.headD ' ' = '-' ∨ r.headD ' ' = '/' ∨ r.headD ' ' = '.') then
    let ms := r.tail.takeWhile Char.isDigit
    let r2 := r.tail.dropWhile Char.isDigit
    if 1 ≤ ms.length ∧ ms.length ≤ 2 ∧
        (r2.headD ' ' = '-' ∨ r2.headD ' ' = '/' ∨ r2.headD ' ' = '.') then
      let ys := r2.tail
      if ys ≠ [] ∧ ys.all Char.isDigit ∧ 2 ≤ ys.length ∧ ys.length ≤ 4 then
        some (natOfDigits ds, natOfDigits ms, natOfDigits ys)
      else none
    else none
  else none

/-- `parseDate(dateStr)`: the written-month pattern, then ISO, then the
European day-first format (two-digit years as `2000 + year`, month
`1..12` and day `1..31` validated), then the host fallback `fb`. -/
def parseDate (fb : String → Option JsDate) (dateStr : String) :
    Option JsDate :=
  if dateStr = "" then none
  else
    let cleaned := trimS dateStr
    let cs := cleaned.toList
    let viaMatch1 : Option JsDate :=
      match scanMatch1 cs with
      | some (ds, wr, ys) =>
        match monthNames.findIdx?
            (fun m => startsWithL (wr.map Char.toLower) m.toList) with
        | some mi => some (jsMkDate (natOfDigits ys) mi (natOfDigits ds))
        | none => none
      | none => none
    match viaMatch1 with
    | some d => some d
    | none =>
      match isoExtract cs with
      | some (y, m, d) => some (jsMkDate y ((m : ℤ) - 1) d)
      | none =>
        match euroExtract cs with
        | some (d, m, y) =>
          let fullYear : ℤ := if (y : ℤ) < 100 then 2000 + (y : ℤ) else (y : ℤ)
          if 1 ≤ m ∧ m ≤ 12 ∧ 1 ≤ d ∧ d ≤ 31 then
            some (jsMkDate fullYear ((m : ℤ) - 1) d)
          else fb cleaned
        | none => fb cleaned

/-- The milliseconds pattern `/(\d{2})\.\d+\s*$/` at a position. -/
def msStripAt (cs : List Char) : Bool :=
  match cs with
  | a :: b :: c :: r =>
    a.isDigit && b.isDigit && c = '.' &&
    !(r.takeWhile Char.isDigit).isEmpty &&
    (r.dropWhile Char.isDigit).all isJsSpace
  | _ => false

/-- `replace(/(\d{2})\.\d+\s*$/, '$1')` (first match; the pattern is
end-anchored, so the replacement keeps the two digits and ends the
string). -/
def msStrip : List Char → List Char
  | [] => []
  | c :: cs => if msStripAt (c :: cs) then [c, cs.headD ' '] else c :: msStrip cs

/-- `replace(/[.:·]/g, ':')`. -/
def sepNorm (cs : List Char) : List Char :=
  cs.map fun c => if c = '.' || c = ':' || c = '·' then ':' else c

/-- `String.prototype.split(sep)` (keeps empty pieces). -/
def splitChar (sep : Char) : List Char → List (List Char)
  | [] => [[]]
  | c :: cs =>
    let r := splitChar sep cs
    if c = sep then [] :: r else (c :: r.headD []) :: r.tail

/-- `parseTime(timeStr, date)`: strip a milliseconds tail, normalize
separators to `:`, split and apply hours/minutes (and seconds when
present) to the date. -/
def parseTime (timeStr : String) (d : JsDate) : JsDate :=
  if timeStr = "" then d
  else
    let cleaned := sepNorm (msStrip (jsTrim timeStr.toList))
    let parts := (splitChar ':' cleaned).map
      (fun p => (jsParseInt (String.mk p)).getD 0)
    if 2 ≤ parts.length then
      { d with
        hours := parts.getD 0 0
        minutes := parts.getD 1 0
        seconds := if 3 ≤ parts.length then parts.getD 2 0 else d.seconds }
    else d

/-- `split(/\s{2,}/)` on fuel (each separator is a maximal whitespace
run of length at least two; fuel equal to the length is enough since
every step consumes at least one character). -/
def splitMSF : ℕ → List Char → List (List Char)
  | _, [] => [[]]
  | 0, l => [l]
  | f + 1, c :: cs =>
    if isJsSpace c ∧ isJsSpace (cs.headD 'x') then
      [] :: splitMSF f (cs.dropWhile isJsSpace)
    else
      let r := splitMSF f cs
      (c :: r.headD []) :: r.tail

def splitMS (l : List Char) : List (List Char) := splitMSF l.length l

/-- The three-stage split of `parseTradeRow`: tabs, then runs of two or
more spaces, then commas, each followed by trim-and-drop-empties. -/
def partsOfRow (row : String) : List String :=
  let tabs := ((splitChar '\t' row.toList).map
    (fun p => String.mk (jsTrim p))).filter (fun p => p ≠ "")
  let parts1 :=
    if tabs.length < 3 then
      ((splitMS row.toList).map
        (fun p => String.mk (jsTrim p))).filter (fun p => p ≠ "")
    else tabs
  if parts1.length < 3 then
    ((splitChar ',' row.toList).map
      (fun p => String.mk (jsTrim p))).filter (fun p => p ≠ "")
  else parts1

/-- The trade object accumulated over the detected fields (`null`
modelled as `none`). -/
structure TAcc where
  date : Option String := none
  time : Option String := none
  exchange : Option String := none
  structureName : Option String := none
  side : Option String := none
  quantity : Option ℚ := none
  price : Option ℚ := none
  structureParts : List String := []
deriving Repr

/-- One iteration of the field-accumulation `switch`: date, time,
exchange, side and quantity keep the first truthy value (the JS guards
are falsy checks, so an empty string or a zero quantity would also be
overwritten); structure and price keep the last; structure parts are
collected in order. -/
def applyField (acc : TAcc) (f : Detected) : TAcc :=
  match f with
  | .dateF v => if acc.date.getD "" = "" then { acc with date := some v } else acc
  | .timeF v => if acc.time.getD "" = "" then { acc with time := some v } else acc
  | .exchangeF v =>
    if acc.exchange.getD "" = "" then { acc with exchange := some v } else acc
  | .structF v => { acc with structureName := some v }
  | .structPartF v => { acc with structureParts := acc.structureParts ++ [v] }
  | .sideF v => if acc.side.getD "" = "" then { acc with side := some v } else acc
  | .quantityF v =>
    if acc.quantity.getD 0 = 0 then { acc with quantity := some v } else acc
  | .priceF v => { acc with price := some v }
  | .unknownF _ => acc

/-- The record returned by the row parser (host-generated `id`,
`dateStr` and `timestamp` omitted; `date` carries the calendar
components including the applied time of day). -/
structure ParsedTrade where
  date : JsDate
  time : String
  exchange : String
  structureName : String
  originalStructure : String
  side : String
  quantity : ℚ
  price : ℚ
deriving DecidableEq, Repr

/-- `parseTradeRowPositional(parts)`: fixed field positions, side
revalidated against the side patterns, `parseInt`/`parseFloat` with
`|| 0`, zero quantity rejected. -/
def parseTradeRowPositional (fb : String → Option JsDate)
    (parts : List String) : Option ParsedTrade :=
  if parts.length < 7 then none
  else
    let dateStr := parts.getD 0 ""
    let timeStr := parts.getD 1 ""
    let exchange := parts.getD 2 ""
    let structureStr := parts.getD 3 ""
    let side := parts.getD 4 ""
    let qtyStr := parts.getD 5 ""
    let priceStr := parts.getD 6 ""
    match parseDate fb dateStr with
    | none => none
    | some d0 =>
      let d := parseTime timeStr d0
      let normalizedStructure := normalizeStructureName structureStr
      let normalizedSide :=
        if sideBuyTest side.toList then some "BUY"
        else if sideSellTest side.toList then some "SELL"
        else none
      match normalizedSide with
      | none => none
      | some sideV =>
        let quantity : ℤ := (jsParseInt qtyStr).getD 0
        let price : ℚ := (jsParseFloat priceStr).getD 0
        if quantity = 0 then none
        else some {
          date := d
          time := timeStr
          exchange := String.mk (jsTrim (removeFirstStar exchange.toList))
          structureName := normalizedStructure
          originalStructure := structureStr
          side := sideV
          quantity := (quantity : ℚ)
          price := price }

/-- `parseTradeRow(row)`: split, detect every field, accumulate,
reconstruct the structure from parts when needed, fall back to
positional parsing when structure or side is missing, then parse the
date, apply the time, normalize the structure and default the
quantity to 1. -/
def parseTradeRow (fb : String → Option JsDate) (row : String) :
    Option ParsedTrade :=
  if trimS row = "" then none
  else
    let parts := partsOfRow row
    if parts.length < 4 then none
    else
      let detected := parts.map detectFieldType
      let acc := detected.foldl applyField {}
      let structure0 := acc.structureName.getD ""
      let structure1 :=
        if structure0 = "" ∧ acc.structureParts ≠ [] then
          String.intercalate " " acc.structureParts
        else structure0
      if structure1 = "" ∨ acc.side = none then parseTradeRowPositional fb parts
      else
        match parseDate fb (acc.date.getD "") with
        | none => none
        | some d0 =>
          let d := parseTime (acc.time.getD "") d0
          let q0 := acc.quantity.getD 0
          some {
            date := d
            time := acc.time.getD ""
            exchange :=
              if acc.exchange.getD "" = "" then "UNKNOWN" else acc.exchange.getD ""
            structureName := normalizeStructureName structure1
            originalStructure := structure1
            side := acc.side.getD ""
            quantity := if q0 ≤ 0 then 1 else q0
            price := acc.price.getD 0 }

/-- C7: parsing the tab-delimited line
`"16-6-25\t16:38:25\tICE_L\tSON Sep26 D-Fly\tB\t1\t-0.025"` yields a
trade dated 2025-06-16 (European day-first reading, two-digit year as
2000 + year, month index 5 = June) with the time of day 16:38:25
applied, exchange `"ICE_L"`, structure `"SON Sep26 D-Fly"` (unchanged
by normalization), side `"BUY"`, quantity 1 and price −0.025 = −1/40 —
for every behaviour `fb` of the host date fallback, which this input
never reaches. -/
theorem parse_round_trip (fb : String → Option JsDate) :
    parseTradeRow fb "16-6-25\t16:38:25\tICE_L\tSON Sep26 D-Fly\tB\t1\t-0.025" =
      some ⟨⟨2025, 5, 16, 16, 38, 25⟩, "16:38:25", "ICE_L", "SON Sep26 D-Fly",
        "SON Sep26 D-Fly", "BUY", 1, -(1 / 40)⟩ := by
  have hne : ¬(trimS "16-6-25\t16:38:25\tICE_L\tSON Sep26 D-Fly\tB\t1\t-0.025" = "") := by
    decide
  have hp : partsOfRow "16-6-25\t16:38:25\tICE_L\tSON Sep26 D-Fly\tB\t1\t-0.025" =
      ["16-6-25", "16:38:25", "ICE_L", "SON Sep26 D-Fly", "B", "1", "-0.025"] := by
    decide
  have h1 : detectFieldType "16-6-25" = Detected.dateF "16-6-25" := by decide
  have h2 : detectFieldType "16:38:25" = Detected.timeF "16:38:25" := by decide
  have h3 : detectFieldType "ICE_L" = Detected.exchangeF "ICE_L" := by decide
  have h4 : detectFieldType "SON Sep26 D-Fly" =
      Detected.structF "SON Sep26 D-Fly" := by decide
  have h5 : detectFieldType "B" = Detected.sideF "BUY" := by decide
  have h6 : detectFieldType "1" = Detected.quantityF 1 := by decide
  have hnum : (jsParseFloat "-0.025").getD 0 = -(1 / 40) := by
    have hred : (jsParseFloat "-0.025").getD 0 =
        -(((0 : ℚ) + 25 / 10 ^ 3) * 10 ^ (0 : ℤ)) := rfl
    rw [hred]; norm_num
  have h7 : detectFieldType "-0.025" = Detected.priceF (-(1 / 40)) := by
    simp only [detectFieldType]
    rw [show trimS "-0.025" = "-0.025" from by decide]
    rw [if_pos (show numericTest "-0.025".toList = true from by decide), hnum]
    rw [if_neg ?hcond]
    case hcond => rintro ⟨-, hlt, -⟩; norm_num at hlt
  have hdate : parseDate fb "16-6-25" = some ⟨2025, 5, 16, 0, 0, 0⟩ := rfl
  have htime : parseTime "16:38:25" ⟨2025, 5, 16, 0, 0, 0⟩ =
      ⟨2025, 5, 16, 16, 38, 25⟩ := by decide
  have hnorm : normalizeStructureName "SON Sep26 D-Fly" = "SON Sep26 D-Fly" := by
    decide
  simp only [parseTradeRow, hp]
  rw [if_neg hne]
  rw [if_neg (show ¬((["16-6-25", "16:38:25", "ICE_L", "SON Sep26 D-Fly", "B",
    "1", "-0.025"] : List String).length < 4) from by decide)]
  simp only [List.map_cons, List.map_nil, h1, h2, h3, h4, h5, h6, h7]
  simp only [List.foldl_cons, List.foldl_nil, applyField]
  norm_num [hdate, htime, hnorm]
  simp [show ("SON Sep26 D-Fly" : String) ≠ "" from by decide,
    show ("ICE_L" : String) ≠ "" from by decide]

end TradeLogger
